import Mathlib

/-!
# Calculadora de CO2: the calculation layer (`js/calculator.js`, `js/config.js`)

A shallow embedding of the five functions of the `Calculator` object together
with the constants of `CONFIG` they read.

## Numbers

A JavaScript `Number` is an IEEE 754 binary64 value.  `JSNumber` carries the
three non-finite values and, for a finite value, the rational it denotes.
Every arithmetic operator is the exactly computed rational result rounded by
`fl` (round to nearest, ties to even, 53 significant bits, gradual underflow
below `2^-1022`, overflow to an infinity from `2^1024` on).

The sign of zero is not tracked: `-0` and `+0` are both `fin 0`.  They are
equal for `===`, `!==`, `<` and `<=`, and the only operator that tells them
apart is a division by zero, which no path of the calculator performs (every
divisor is a non-zero constant or is guarded by `!== 0`).

The arguments of the functions are taken after the `Number(...)` coercion the
source applies to them, that is, as values of `JSNumber`.

## Environment

* `window.CONFIG`, `CONFIG.EMISSION_FACTORS` and `CONFIG.CARBON_CREDIT` are the
  objects of `js/config.js`, so the guards `!window.CONFIG || ...` never fire.
* A numeric literal denotes the double nearest to its decimal value.
* `Math.pow(10, 2)` and `Math.pow(10, 4)` are the exact powers `100` and `10000`.
* `Array.prototype.sort` is stable (ECMAScript 2019); it is modelled by a
  stable insertion sort, `arraySort`.
-/

/-- A JavaScript `Number`: `NaN`, the two infinities, or a finite value. -/
inductive JSNumber where
  | nan
  | posInf
  | negInf
  | fin (q : ℚ)
deriving DecidableEq, Repr

namespace JSNumber

/-- Binary logarithm of a natural number, rounded down (`0` for `0` and `1`);
the first argument bounds the number of halvings. -/
def log2Aux : ℕ → ℕ → ℕ
  | 0, _ => 0
  | fuel + 1, n => if n < 2 then 0 else log2Aux fuel (n / 2) + 1

/-- Position of the leading bit of `n`. -/
def nlog2 (n : ℕ) : ℕ := log2Aux n n

/-- The rational `2^e` for an integer exponent. -/
def pow2 (e : ℤ) : ℚ :=
  if 0 ≤ e then ((2 ^ e.toNat : ℕ) : ℚ) else 1 / ((2 ^ (-e).toNat : ℕ) : ℚ)

/-- The binade of a non-zero rational: the `k` with `2^k ≤ |q| < 2^(k+1)`. -/
def ilog2 (q : ℚ) : ℤ :=
  let k : ℤ := (nlog2 q.num.natAbs : ℤ) - (nlog2 q.den : ℤ)
  if pow2 k ≤ |q| then k else k - 1

/-- Nearest integer, a tie going to the even neighbour. -/
def roundHalfEven (q : ℚ) : ℤ :=
  let f := ⌊q⌋
  let r := q - f
  if r < 1 / 2 then f else if 1 / 2 < r then f + 1 else if f % 2 = 0 then f else f + 1

/-- Exponent of the unit in the last place of the binary64 binade of `q`:
52 below the binade for a normal number, `-1074` in the subnormal range. -/
def ulpExp (q : ℚ) : ℤ := max (ilog2 q) (-1022) - 52

/-- Round to 53 significant bits (fewer in the subnormal range), with an
unbounded exponent range upwards. -/
def roundBinary (q : ℚ) : ℚ := (roundHalfEven (q / pow2 (ulpExp q)) : ℚ) * pow2 (ulpExp q)

/-- The binary64 rounding of an exactly computed result. -/
def fl (q : ℚ) : JSNumber :=
  let r := roundBinary q
  if pow2 1024 ≤ r then posInf else if r ≤ -pow2 1024 then negInf else fin r

/-- A numeric literal of the source text. -/
def ofRat (q : ℚ) : JSNumber := fl q

/-- Global `isFinite` on a number. -/
def isFinite : JSNumber → Bool
  | fin _ => true
  | _ => false

/-- Unary minus. -/
def neg : JSNumber → JSNumber
  | nan => nan
  | posInf => negInf
  | negInf => posInf
  | fin a => fin (-a)

/-- The operator `+`. -/
def add : JSNumber → JSNumber → JSNumber
  | nan, _ => nan
  | _, nan => nan
  | posInf, negInf => nan
  | negInf, posInf => nan
  | posInf, _ => posInf
  | _, posInf => posInf
  | negInf, _ => negInf
  | _, negInf => negInf
  | fin a, fin b => fl (a + b)

/-- The operator `-`. -/
def sub (a b : JSNumber) : JSNumber := add a (neg b)

/-- Product of an infinity (negative when `negative`) with the finite `b`. -/
def infTimes (negative : Bool) (b : ℚ) : JSNumber :=
  if b = 0 then nan else if (0 < b) = negative then negInf else posInf

/-- The operator `*`. -/
def mul : JSNumber → JSNumber → JSNumber
  | nan, _ => nan
  | _, nan => nan
  | posInf, posInf => posInf
  | posInf, negInf => negInf
  | negInf, posInf => negInf
  | negInf, negInf => posInf
  | posInf, fin b => infTimes false b
  | negInf, fin b => infTimes true b
  | fin a, posInf => infTimes false a
  | fin a, negInf => infTimes true a
  | fin a, fin b => fl (a * b)

/-- The operator `/` (a zero divisor is read as `+0`). -/
def div : JSNumber → JSNumber → JSNumber
  | nan, _ => nan
  | _, nan => nan
  | posInf, posInf => nan
  | posInf, negInf => nan
  | negInf, posInf => nan
  | negInf, negInf => nan
  | posInf, fin b => if b < 0 then negInf else posInf
  | negInf, fin b => if b < 0 then posInf else negInf
  | fin _, posInf => fin 0
  | fin _, negInf => fin 0
  | fin a, fin b =>
    if b = 0 then (if a = 0 then nan else if a < 0 then negInf else posInf)
    else fl (a / b)

/-- The operator `<`. -/
def lt : JSNumber → JSNumber → Bool
  | nan, _ => false
  | _, nan => false
  | posInf, _ => false
  | _, negInf => false
  | negInf, _ => true
  | _, posInf => true
  | fin a, fin b => decide (a < b)

/-- The operator `<=`. -/
def le : JSNumber → JSNumber → Bool
  | nan, _ => false
  | _, nan => false
  | negInf, _ => true
  | _, posInf => true
  | posInf, _ => false
  | _, negInf => false
  | fin a, fin b => decide (a ≤ b)

/-- `Math.round`: the nearest integer, a tie going towards `+∞`. -/
def mathRound : JSNumber → JSNumber
  | fin a => fin (⌊a + 1 / 2⌋ : ℤ)
  | x => x

/-- `Math.pow(10, n)` for a small natural `n` (exact: `10^n` is a double). -/
def mathPow10 (n : ℕ) : JSNumber := fl ((10 : ℚ) ^ n)

/-- `Number.EPSILON`, the gap between `1` and the next double. -/
def EPSILON : JSNumber := fin (pow2 (-52))

/-- The value of `Number.MAX_VALUE`, the largest finite double. -/
def MAX_VALUE : ℚ := (2 ^ 53 - 1) * pow2 971

end JSNumber

open JSNumber

namespace CONFIG

/-- `CONFIG.EMISSION_FACTORS`, in the order of the object literal (the order
`Object.keys` enumerates). -/
def EMISSION_FACTORS : List (String × JSNumber) :=
  [("bicycle", ofRat 0), ("car", ofRat (12 / 100)), ("bus", ofRat (89 / 1000)),
   ("truck", ofRat (96 / 100))]

/-- `CONFIG.CARBON_CREDIT.KG_PER_CREDIT`. -/
def KG_PER_CREDIT : JSNumber := ofRat 1000

/-- `CONFIG.CARBON_CREDIT.PRICE_MIN_BRL`. -/
def PRICE_MIN_BRL : JSNumber := ofRat 50

/-- `CONFIG.CARBON_CREDIT.PRICE_MAX_BRL`. -/
def PRICE_MAX_BRL : JSNumber := ofRat 150

end CONFIG

namespace Calculator

/-- One element of the array `calculateAllModes` returns. -/
structure ModeResult where
  mode : String
  emission : JSNumber
  percentageVsCar : Option JSNumber
deriving DecidableEq, Repr

/-- The object `calculateSavings` returns. -/
structure Savings where
  savedKg : JSNumber
  percentage : Option JSNumber
deriving DecidableEq, Repr

/-- The object `estimateCreditPrice` returns. -/
structure PriceEstimate where
  min : JSNumber
  max : JSNumber
  average : JSNumber
deriving DecidableEq, Repr

/-- The helper `round(value, decimals)`:
`Math.round((Number(value) + Number.EPSILON) * factor) / factor` with
`factor = Math.pow(10, decimals)`. -/
def round (value : JSNumber) (decimals : ℕ) : JSNumber :=
  let factor := mathPow10 decimals
  div (mathRound (mul (add value EPSILON) factor)) factor

/-- The function `calculateEmission(distanceKm, transportMode)`; `none` is the `null`
result.  A key that is absent from the table reads as `undefined`, whose
`typeof` is not `'number'`. -/
def calculateEmission (distanceKm : JSNumber) (transportMode : String) : Option JSNumber :=
  let dist := distanceKm
  if !isFinite dist || lt dist (fin 0) then none
  else
    match CONFIG.EMISSION_FACTORS.lookup transportMode with
    | none => none
    | some factor =>
      if !isFinite factor then none
      else
        let emission := mul dist factor
        some (round emission 2)

/-- Insertion of `a` into a list ordered by the comparator: `a` goes in front
of the first element it is not greater than. -/
def sortInsert {α : Type} (cmp : α → α → JSNumber) (a : α) : List α → List α
  | [] => [a]
  | b :: l => if lt (fin 0) (cmp a b) then b :: sortInsert cmp a l else a :: b :: l

/-- The method `Array.prototype.sort(comparefn)` as a stable sort: a positive
result of `comparefn(a, b)` puts `b` first, any other result (zero, negative
or `NaN`) keeps `a` first. -/
def arraySort {α : Type} (cmp : α → α → JSNumber) (l : List α) : List α :=
  l.foldr (sortInsert cmp) []

/-- The function `calculateAllModes(distanceKm)`. -/
def calculateAllModes (distanceKm : JSNumber) : Option (List ModeResult) :=
  let dist := distanceKm
  if !isFinite dist || lt dist (fin 0) then none
  else
    let factors := CONFIG.EMISSION_FACTORS
    let carEmission : Option JSNumber :=
      match factors.lookup "car" with
      | some f => some (mul dist f)
      | none => none
    let results := factors.map fun (mode, factor) =>
      let emission := mul dist factor
      let emissionRounded := round emission 2
      let percentageVsCar : Option JSNumber :=
        match carEmission with
        | some car =>
          if car ≠ fin 0 then some (round (mul (div emission car) (ofRat 100)) 2) else none
        | none => none
      { mode := mode, emission := emissionRounded, percentageVsCar := percentageVsCar : ModeResult }
    some (arraySort (fun a b => sub a.emission b.emission) results)

/-- The function `calculateSavings(emission, baselineEmission)`. -/
def calculateSavings (emission baselineEmission : JSNumber) : Option Savings :=
  let e := emission
  let b := baselineEmission
  if !isFinite e || !isFinite b then none
  else
    let saved := sub b e
    let savedKg := round saved 2
    let percentage : Option JSNumber :=
      if b ≠ fin 0 then some (round (mul (div saved b) (ofRat 100)) 2) else none
    some { savedKg := savedKg, percentage := percentage }

/-- The function `calculateCarbonCredits(emissionKg)`. -/
def calculateCarbonCredits (emissionKg : JSNumber) : Option JSNumber :=
  let e := emissionKg
  if !isFinite e || lt e (fin 0) then none
  else
    let per := CONFIG.KG_PER_CREDIT
    if !isFinite per || le per (fin 0) then none
    else
      let credits := div e per
      some (round credits 4)

/-- The function `estimateCreditPrice(credits)`. -/
def estimateCreditPrice (credits : JSNumber) : Option PriceEstimate :=
  let c := credits
  if !isFinite c || lt c (fin 0) then none
  else
    let minP := CONFIG.PRICE_MIN_BRL
    let maxP := CONFIG.PRICE_MAX_BRL
    if !isFinite minP || !isFinite maxP then none
    else
      let min := round (mul c minP) 2
      let max := round (mul c maxP) 2
      let avg := round (div (add min max) (ofRat 2)) 2
      some { min := min, max := max, average := avg }

end Calculator

/-- Round half up to `n` decimals, as the specification words it: the nearest
multiple of `10^-n`, a tie going up. -/
def roundHalfUp (x : ℚ) (n : ℕ) : ℚ := ((⌊x * 10 ^ n + 1 / 2⌋ : ℤ) : ℚ) / 10 ^ n

open Calculator

/-!
# The route table and the form handler (`js/routes-data.js`, `js/app.js`)

A JavaScript string is taken as a Lean `String`, a sequence of Unicode code
points.  `String.prototype.trim` removes the white space and line terminator
code points of ECMAScript from both ends.  `String.prototype.toLowerCase` and
`String.prototype.localeCompare` depend on the Unicode and collation tables of
the engine, which are not part of the repository: they are parameters of the
functions that call them.
-/

/-- A JavaScript value as `normalizeCity` sees it: a string, or a value of any
other type. -/
inductive JSValue where
  | str (s : String)
  | other
deriving DecidableEq, Repr

namespace RoutesDB

/-- One element of `RoutesDB.routers`. -/
structure Route where
  origin : String
  destination : String
  distanceKm : JSNumber
deriving DecidableEq, Repr

/-- The array `routers`, in source order (an integer literal is an exact
double). -/
def routers : List Route :=
  [
    ⟨"São Paulo, SP", "Rio de Janeiro, RJ", fin 430⟩,
    ⟨"São Paulo, SP", "Brasília, DF", fin 1015⟩,
    ⟨"Rio de Janeiro, RJ", "Brasília, DF", fin 1148⟩,
    ⟨"São Paulo, SP", "Campinas, SP", fin 95⟩,
    ⟨"Rio de Janeiro, RJ", "Niterói, RJ", fin 13⟩,
    ⟨"Belo Horizonte, MG", "Ouro Preto, MG", fin 100⟩,
    ⟨"Porto Alegre, RS", "Pelotas, RS", fin 260⟩,
    ⟨"Curitiba, PR", "Florianópolis, SC", fin 300⟩,
    ⟨"Salvador, BA", "Feira de Santana, BA", fin 110⟩,
    ⟨"Fortaleza, CE", "Sobral, CE", fin 240⟩,
    ⟨"Manaus, AM", "Santarém, PA", fin 670⟩,
    ⟨"Belém, PA", "Ananindeua, PA", fin 20⟩,
    ⟨"Recife, PE", "Olinda, PE", fin 10⟩,
    ⟨"João Pessoa, PB", "Campina Grande, PB", fin 120⟩,
    ⟨"Natal, RN", "Mossoró, RN", fin 210⟩,
    ⟨"Vitória, ES", "Vila Velha, ES", fin 10⟩,
    ⟨"Goiânia, GO", "Anápolis, GO", fin 55⟩,
    ⟨"Campo Grande, MS", "Dourados, MS", fin 220⟩,
    ⟨"Cuiabá, MT", "Rondonópolis, MT", fin 220⟩,
    ⟨"Brasília, DF", "Goiânia, GO", fin 200⟩,
    ⟨"São Paulo, SP", "Santos, SP", fin 80⟩,
    ⟨"São Paulo, SP", "Ribeirão Preto, SP", fin 320⟩,
    ⟨"Salvador, BA", "Ilhéus, BA", fin 270⟩,
    ⟨"Porto Alegre, RS", "Caxias do Sul, RS", fin 130⟩,
    ⟨"Curitiba, PR", "Londrina, PR", fin 370⟩,
    ⟨"Fortaleza, CE", "Juazeiro do Norte, CE", fin 500⟩,
    ⟨"Recife, PE", "Maceió, AL", fin 250⟩,
    ⟨"Manaus, AM", "Belém, PA", fin 1480⟩,
    ⟨"São Paulo, SP", "Porto Alegre, RS", fin 1130⟩,
    ⟨"São Paulo, SP", "Salvador, BA", fin 1540⟩,
    ⟨"São Paulo, SP", "Recife, PE", fin 2650⟩,
    ⟨"Belo Horizonte, MG", "São Paulo, SP", fin 586⟩,
    ⟨"Curitiba, PR", "São Paulo, SP", fin 408⟩,
    ⟨"Vitória, ES", "Rio de Janeiro, RJ", fin 520⟩,
    ⟨"Rio de Janeiro, RJ", "Niterói, RJ", fin 13⟩,
    ⟨"Belém, PA", "Santarém, PA", fin 680⟩ ]

/-- The code points `trim` removes: `WhiteSpace` and `LineTerminator` of
ECMAScript (TAB, LF, VT, FF, CR, SP, NBSP, the other space separators, LS, PS
and ZWNBSP). -/
def isWhiteSpace (c : Char) : Bool :=
  c.val.toNat ∈ [0x9, 0xA, 0xB, 0xC, 0xD, 0x20, 0xA0, 0x1680, 0x2028, 0x2029, 0x202F, 0x205F,
    0x3000, 0xFEFF] || (0x2000 ≤ c.val.toNat && c.val.toNat ≤ 0x200A)

/-- The method `String.prototype.trim`. -/
def trim (s : String) : String :=
  ⟨(s.data.dropWhile isWhiteSpace).rdropWhile isWhiteSpace⟩

/-- Lowercasing of the letters `A`-`Z` only: what `toLowerCase` does on a string
whose upper-case letters are all in that range. -/
def toLowerCaseAscii (s : String) : String := ⟨s.data.map Char.toLower⟩

/-- What the statements on the concrete table ask of the engine's
`toLowerCase`: on the city names of `routers`, whose upper-case letters are all
in `A`-`Z`, it is the lowercasing of those letters. -/
def LowercasesRouters (toLowerCase : String → String) : Prop :=
  ∀ r ∈ routers,
    toLowerCase (trim r.origin) = toLowerCaseAscii (trim r.origin) ∧
      toLowerCase (trim r.destination) = toLowerCaseAscii (trim r.destination)

/-- The function `normalizeCity(name)`. -/
def normalizeCity (toLowerCase : String → String) : JSValue → String
  | .str name => toLowerCase (trim name)
  | .other => ""

/-- The `for` loop of `findDistance` over the facts that remain: the first fact
that matches `(o, d)` forwards or swapped gives the result. -/
def findDistanceLoop (toLowerCase : String → String) (o d : String) :
    List Route → Option JSNumber
  | [] => none
  | r :: rest =>
    if normalizeCity toLowerCase (.str r.origin) = o ∧
        normalizeCity toLowerCase (.str r.destination) = d then some r.distanceKm
    else if normalizeCity toLowerCase (.str r.origin) = d ∧
        normalizeCity toLowerCase (.str r.destination) = o then some r.distanceKm
    else findDistanceLoop toLowerCase o d rest

/-- The body of `findDistance(origin, destination)` over a given array of facts;
`none` is the `null` result.  An empty string is the only falsy string. -/
def findDistanceIn (toLowerCase : String → String) (table : List Route)
    (origin destination : JSValue) : Option JSNumber :=
  let o := normalizeCity toLowerCase origin
  let d := normalizeCity toLowerCase destination
  if o = "" ∨ d = "" then none else findDistanceLoop toLowerCase o d table

/-- The function `findDistance(origin, destination)`. -/
def findDistance (toLowerCase : String → String) (origin destination : JSValue) :
    Option JSNumber :=
  findDistanceIn toLowerCase routers origin destination

/-- The assignment `set[key] = true` on the keys of `set` in insertion order (the
order `Object.keys` enumerates keys that are not array indices). -/
def setInsert (keys : List String) (key : String) : List String :=
  if key ∈ keys then keys else keys ++ [key]

/-- The keys of `set` after the `forEach` of `getAllCities` over an array of
facts. -/
def cityKeys (table : List Route) : List String :=
  table.foldl (fun set r => setInsert (setInsert set r.origin) r.destination) []

/-- The function `getAllCities()`; `localeCompare a b` is
`a.localeCompare(b, 'pt-BR')`. -/
def getAllCities (localeCompare : String → String → JSNumber) : List String :=
  Calculator.arraySort localeCompare (cityKeys routers)

/-- The fact `r` matches the normalized pair `(o, d)` forwards or swapped. -/
def matchesPair (toLowerCase : String → String) (o d : String) (r : Route) : Bool :=
  (normalizeCity toLowerCase (.str r.origin) = o ∧
      normalizeCity toLowerCase (.str r.destination) = d) ∨
    (normalizeCity toLowerCase (.str r.origin) = d ∧
      normalizeCity toLowerCase (.str r.destination) = o)

end RoutesDB

namespace App

/-- The values `handleFormSubmit` computes before it renders. -/
structure Calculations where
  emission : JSNumber
  carEmission : Option JSNumber
  savings : Option Calculator.Savings
  allModes : Option (List Calculator.ModeResult)
  credits : Option JSNumber
  priceEstimate : Option Calculator.PriceEstimate
deriving DecidableEq, Repr

/-- The validation of the distance in `handleFormSubmit`: `!distance` rejects `0`
and `NaN`, then `isNaN(distance) || distance <= 0` rejects what is not
positive. -/
def validDistance (distance : JSNumber) : Bool :=
  !(distance == fin 0 || distance == nan) && !(distance == nan || le distance (fin 0))

/-- The calculations of `handleFormSubmit` (the body of the `try` block up to the
rendering); `Except.error` is the thrown `Error`.  `Calculator` and its
functions are defined, so the `typeof` guards pass. -/
def calculations (distance : JSNumber) (selectedMode : String) : Except String Calculations :=
  match Calculator.calculateEmission distance selectedMode with
  | none => .error "Falha ao calcular emissão. Verifique os dados."
  | some emission =>
    let carEmission := Calculator.calculateEmission distance "car"
    let savings : Option Calculator.Savings :=
      match carEmission with
      | some car =>
        if selectedMode ≠ "car" then Calculator.calculateSavings emission car else none
      | none => none
    let allModes := Calculator.calculateAllModes distance
    let credits := Calculator.calculateCarbonCredits emission
    let priceEstimate : Option Calculator.PriceEstimate :=
      match credits with
      | some c => Calculator.estimateCreditPrice c
      | none => none
    .ok { emission := emission, carEmission := carEmission, savings := savings,
          allModes := allModes, credits := credits, priceEstimate := priceEstimate }

end App


/-! ## Binary rounding -/

theorem log2Aux_spec : ∀ (fuel n : ℕ), n ≤ fuel → 1 ≤ n →
    2 ^ log2Aux fuel n ≤ n ∧ n < 2 ^ (log2Aux fuel n + 1) := by
  intro fuel
  induction fuel with
  | zero => intro n h1 h2; omega
  | succ f ih =>
    intro n h1 h2
    unfold log2Aux
    by_cases h : n < 2
    · simp [h]; omega
    · simp only [h, if_false]
      have := ih (n / 2) (by omega) (by omega)
      obtain ⟨a, b⟩ := this
      constructor
      · rw [pow_succ]; omega
      · rw [pow_succ]; omega

theorem nlog2_spec (n : ℕ) (h : 1 ≤ n) : 2 ^ nlog2 n ≤ n ∧ n < 2 ^ (nlog2 n + 1) :=
  log2Aux_spec n n le_rfl h

theorem pow2_eq (e : ℤ) : pow2 e = (2 : ℚ) ^ e := by
  unfold pow2
  split_ifs with h
  · obtain ⟨n, rfl⟩ := Int.eq_ofNat_of_zero_le h
    simp
  · push_neg at h
    obtain ⟨n, hn⟩ := Int.exists_eq_neg_ofNat h.le
    subst hn
    simp

theorem pow2_pos (e : ℤ) : 0 < pow2 e := by
  rw [pow2_eq]; positivity

theorem pow2_add (a b : ℤ) : pow2 (a + b) = pow2 a * pow2 b := by
  simp only [pow2_eq]; exact zpow_add₀ (by norm_num) a b

theorem pow2_le_pow2 {a b : ℤ} (h : a ≤ b) : pow2 a ≤ pow2 b := by
  simp only [pow2_eq]; exact zpow_le_zpow_right₀ (by norm_num) h

theorem pow2_lt_pow2 {a b : ℤ} (h : a < b) : pow2 a < pow2 b := by
  simp only [pow2_eq]; exact zpow_lt_zpow_right₀ (by norm_num) h

theorem abs_eq_natAbs_div (q : ℚ) : |q| = (q.num.natAbs : ℚ) / (q.den : ℚ) := by
  conv_lhs => rw [← Rat.num_div_den q]
  rw [abs_div, Nat.abs_cast, Nat.cast_natAbs, Int.cast_abs]

theorem ilog2_spec (q : ℚ) (hq : q ≠ 0) : pow2 (ilog2 q) ≤ |q| ∧ |q| < pow2 (ilog2 q + 1) := by
  have hn : 1 ≤ q.num.natAbs := by
    have : q.num ≠ 0 := Rat.num_ne_zero.mpr hq
    omega
  have hd : 1 ≤ q.den := q.den_pos
  obtain ⟨a1, a2⟩ := nlog2_spec _ hn
  obtain ⟨b1, b2⟩ := nlog2_spec _ hd
  have habs := abs_eq_natAbs_div q
  have hdpos : (0 : ℚ) < q.den := by exact_mod_cast hd
  have a1' : (2 : ℚ) ^ (nlog2 q.num.natAbs : ℤ) ≤ q.num.natAbs := by
    rw [zpow_natCast]; exact_mod_cast a1
  have a2' : (q.num.natAbs : ℚ) < (2 : ℚ) ^ ((nlog2 q.num.natAbs : ℤ) + 1) := by
    rw [show ((nlog2 q.num.natAbs : ℤ) + 1) = ((nlog2 q.num.natAbs + 1 : ℕ) : ℤ) by push_cast; ring,
      zpow_natCast]; exact_mod_cast a2
  have b1' : (2 : ℚ) ^ (nlog2 q.den : ℤ) ≤ q.den := by
    rw [zpow_natCast]; exact_mod_cast b1
  have b2' : (q.den : ℚ) < (2 : ℚ) ^ ((nlog2 q.den : ℤ) + 1) := by
    rw [show ((nlog2 q.den : ℤ) + 1) = ((nlog2 q.den + 1 : ℕ) : ℤ) by push_cast; ring,
      zpow_natCast]; exact_mod_cast b2
  set la : ℤ := (nlog2 q.num.natAbs : ℤ)
  set lb : ℤ := (nlog2 q.den : ℤ)
  have hlow : pow2 (la - lb - 1) ≤ |q| := by
    rw [habs, pow2_eq, le_div_iff₀ hdpos]
    calc (2 : ℚ) ^ (la - lb - 1) * q.den ≤ (2 : ℚ) ^ (la - lb - 1) * (2 : ℚ) ^ (lb + 1) :=
          mul_le_mul_of_nonneg_left b2'.le (by positivity)
      _ = (2 : ℚ) ^ la := by rw [← zpow_add₀ (by norm_num)]; congr 1; ring
      _ ≤ _ := a1'
  have hhigh : |q| < pow2 (la - lb + 1) := by
    rw [habs, pow2_eq, div_lt_iff₀ hdpos]
    calc (q.num.natAbs : ℚ) < (2 : ℚ) ^ (la + 1) := a2'
      _ = (2 : ℚ) ^ (la - lb + 1) * (2 : ℚ) ^ lb := by
          rw [← zpow_add₀ (by norm_num)]; congr 1; ring
      _ ≤ _ := mul_le_mul_of_nonneg_left b1' (by positivity)
  show pow2 (if pow2 (la - lb) ≤ |q| then la - lb else la - lb - 1) ≤ |q| ∧
    |q| < pow2 ((if pow2 (la - lb) ≤ |q| then la - lb else la - lb - 1) + 1)
  split_ifs with h
  · exact ⟨h, hhigh⟩
  · push_neg at h
    refine ⟨hlow, ?_⟩
    rwa [show la - lb - 1 + 1 = la - lb by ring]

theorem roundHalfEven_spec (q : ℚ) :
    |(roundHalfEven q : ℚ) - q| < 1 / 2 ∨
      (|(roundHalfEven q : ℚ) - q| = 1 / 2 ∧ roundHalfEven q % 2 = 0) := by
  have h1 := Int.floor_le q
  have h2 := Int.lt_floor_add_one q
  unfold roundHalfEven
  simp only
  split_ifs with a b c
  · left; rw [abs_lt]; constructor <;> linarith
  · left; push_cast; rw [abs_lt]; constructor <;> linarith
  · right
    have : q - ⌊q⌋ = 1 / 2 := le_antisymm (not_lt.mp b) (not_lt.mp a)
    refine ⟨?_, c⟩
    rw [abs_sub_comm, this]; norm_num
  · right
    have : q - ⌊q⌋ = 1 / 2 := le_antisymm (not_lt.mp b) (not_lt.mp a)
    refine ⟨?_, by omega⟩
    push_cast
    rw [show (⌊q⌋ : ℚ) + 1 - q = 1 - (q - ⌊q⌋) by ring, this]; norm_num

theorem roundHalfEven_unique (q : ℚ) (n : ℤ)
    (h : |(n : ℚ) - q| < 1 / 2 ∨ (|(n : ℚ) - q| = 1 / 2 ∧ n % 2 = 0)) :
    roundHalfEven q = n := by
  have hs := roundHalfEven_spec q
  set m := roundHalfEven q
  have key : |((m - n : ℤ) : ℚ)| ≤ |(m : ℚ) - q| + |(n : ℚ) - q| := by
    push_cast
    calc |(m : ℚ) - n| = |((m : ℚ) - q) - ((n : ℚ) - q)| := by ring_nf
      _ ≤ _ := abs_sub _ _
  rcases hs with hs | ⟨hs, hm⟩ <;> rcases h with h | ⟨h, hn⟩
  · have : |((m - n : ℤ) : ℚ)| < 1 := by linarith
    rw [← Int.cast_abs] at this
    have : |m - n| < 1 := by exact_mod_cast this
    rw [abs_lt] at this; omega
  · have : |((m - n : ℤ) : ℚ)| < 1 := by linarith
    rw [← Int.cast_abs] at this
    have : |m - n| < 1 := by exact_mod_cast this
    rw [abs_lt] at this; omega
  · have : |((m - n : ℤ) : ℚ)| < 1 := by linarith
    rw [← Int.cast_abs] at this
    have : |m - n| < 1 := by exact_mod_cast this
    rw [abs_lt] at this; omega
  · have : |((m - n : ℤ) : ℚ)| ≤ 1 := by linarith
    rw [← Int.cast_abs] at this
    have : |m - n| ≤ 1 := by exact_mod_cast this
    rw [abs_le] at this; omega

theorem roundHalfEven_intCast (n : ℤ) : roundHalfEven (n : ℚ) = n :=
  roundHalfEven_unique _ _ (Or.inl (by simp))

theorem roundHalfEven_neg (q : ℚ) : roundHalfEven (-q) = -roundHalfEven q := by
  apply roundHalfEven_unique
  rcases roundHalfEven_spec q with h | ⟨h, hm⟩
  · left
    rw [show ((-roundHalfEven q : ℤ) : ℚ) - -q = -((roundHalfEven q : ℚ) - q) by push_cast; ring,
      abs_neg]
    exact h
  · right
    refine ⟨?_, by omega⟩
    rw [show ((-roundHalfEven q : ℤ) : ℚ) - -q = -((roundHalfEven q : ℚ) - q) by push_cast; ring,
      abs_neg]
    exact h

theorem roundHalfEven_abs_sub_le (q : ℚ) : |(roundHalfEven q : ℚ) - q| ≤ 1 / 2 := by
  rcases roundHalfEven_spec q with h | ⟨h, _⟩
  · exact h.le
  · exact h.le

theorem roundHalfEven_mono {a b : ℚ} (h : a ≤ b) : roundHalfEven a ≤ roundHalfEven b := by
  have hf : ⌊a⌋ ≤ ⌊b⌋ := Int.floor_le_floor h
  have ha1 : roundHalfEven a ≤ ⌊a⌋ + 1 := by
    unfold roundHalfEven; simp only; split_ifs <;> omega
  have hb0 : ⌊b⌋ ≤ roundHalfEven b := by
    unfold roundHalfEven; simp only; split_ifs <;> omega
  rcases lt_or_eq_of_le hf with hlt | heq
  · omega
  · unfold roundHalfEven
    simp only [heq]
    have hsub : a - (⌊b⌋ : ℚ) ≤ b - (⌊b⌋ : ℚ) := by linarith
    split_ifs <;> first | omega | (exfalso; linarith)

theorem ilog2_neg (q : ℚ) : ilog2 (-q) = ilog2 q := by
  unfold ilog2
  simp [Rat.num_neg_eq_neg_num, Rat.den_neg_eq_den]

theorem ulpExp_neg (q : ℚ) : ulpExp (-q) = ulpExp q := by
  unfold ulpExp; rw [ilog2_neg]

theorem roundBinary_neg (q : ℚ) : roundBinary (-q) = -roundBinary q := by
  unfold roundBinary
  rw [ulpExp_neg, neg_div, roundHalfEven_neg]
  push_cast; ring

theorem roundBinary_zero : roundBinary 0 = 0 := by
  unfold roundBinary
  rw [zero_div, show (0 : ℚ) = ((0 : ℤ) : ℚ) by norm_num, roundHalfEven_intCast]
  simp

theorem ilog2_mono {x y : ℚ} (hx : 0 < x) (h : x ≤ y) : ilog2 x ≤ ilog2 y := by
  have hy : 0 < y := lt_of_lt_of_le hx h
  obtain ⟨a, _⟩ := ilog2_spec x hx.ne'
  obtain ⟨_, b⟩ := ilog2_spec y hy.ne'
  rw [abs_of_pos hx] at a
  rw [abs_of_pos hy] at b
  have : pow2 (ilog2 x) < pow2 (ilog2 y + 1) := lt_of_le_of_lt (a.trans h) b
  by_contra hc
  push_neg at hc
  have := pow2_le_pow2 (show ilog2 y + 1 ≤ ilog2 x by omega)
  linarith

theorem ulpExp_mono {x y : ℚ} (hx : 0 < x) (h : x ≤ y) : ulpExp x ≤ ulpExp y := by
  unfold ulpExp
  have := ilog2_mono hx h
  omega

/-- Scaled by its unit in the last place, a positive number is below `2^53`. -/
theorem scaled_lt {x : ℚ} (hx : 0 < x) : x / pow2 (ulpExp x) < 2 ^ 53 := by
  obtain ⟨_, b⟩ := ilog2_spec x hx.ne'
  rw [abs_of_pos hx] at b
  rw [div_lt_iff₀ (pow2_pos _)]
  have h53 : (2 : ℚ) ^ 53 = pow2 53 := by rw [pow2_eq]; norm_cast
  rw [h53, ← pow2_add]
  refine lt_of_lt_of_le b (pow2_le_pow2 ?_)
  unfold ulpExp; omega

/-- Scaled by its unit in the last place, a normal number is at least `2^52`. -/
theorem le_scaled {x : ℚ} (hx : 0 < x) (hn : -1022 ≤ ilog2 x) :
    2 ^ 52 ≤ x / pow2 (ulpExp x) := by
  obtain ⟨a, _⟩ := ilog2_spec x hx.ne'
  rw [abs_of_pos hx] at a
  rw [le_div_iff₀ (pow2_pos _)]
  have h52 : (2 : ℚ) ^ 52 = pow2 52 := by rw [pow2_eq]; norm_cast
  rw [h52, ← pow2_add]
  refine le_trans (pow2_le_pow2 ?_) a
  unfold ulpExp; omega

theorem roundBinary_nonneg {x : ℚ} (hx : 0 ≤ x) : 0 ≤ roundBinary x := by
  unfold roundBinary
  refine mul_nonneg ?_ (pow2_pos _).le
  have : roundHalfEven 0 ≤ roundHalfEven (x / pow2 (ulpExp x)) :=
    roundHalfEven_mono (div_nonneg hx (pow2_pos _).le)
  rw [show (0 : ℚ) = ((0 : ℤ) : ℚ) by norm_num, roundHalfEven_intCast] at this
  exact_mod_cast this

theorem roundBinary_mono_pos {x y : ℚ} (hx : 0 < x) (h : x ≤ y) :
    roundBinary x ≤ roundBinary y := by
  have hy : 0 < y := lt_of_lt_of_le hx h
  rcases lt_or_eq_of_le (ulpExp_mono hx h) with hlt | heq
  · -- different binades: a power of two separates the two roundings
    have hny : -1022 ≤ ilog2 y := by
      unfold ulpExp at hlt
      by_contra hc; push_neg at hc
      have := ilog2_mono hx h
      omega
    have hxs : roundHalfEven (x / pow2 (ulpExp x)) ≤ 2 ^ 53 := by
      have := roundHalfEven_mono (scaled_lt hx).le
      rw [show (2 : ℚ) ^ 53 = (((2 : ℤ) ^ 53 : ℤ) : ℚ) by norm_num, roundHalfEven_intCast] at this
      exact this
    have hys : 2 ^ 52 ≤ roundHalfEven (y / pow2 (ulpExp y)) := by
      have := roundHalfEven_mono (le_scaled hy hny)
      rw [show (2 : ℚ) ^ 52 = (((2 : ℤ) ^ 52 : ℤ) : ℚ) by norm_num, roundHalfEven_intCast] at this
      exact this
    unfold roundBinary
    have hxs' : (roundHalfEven (x / pow2 (ulpExp x)) : ℚ) ≤ 2 ^ 53 := by exact_mod_cast hxs
    have hys' : (2 : ℚ) ^ 52 ≤ roundHalfEven (y / pow2 (ulpExp y)) := by exact_mod_cast hys
    have hp : pow2 (ulpExp x) * 2 ≤ pow2 (ulpExp y) := by
      have := pow2_le_pow2 (show ulpExp x + 1 ≤ ulpExp y by omega)
      rw [pow2_add] at this
      have h1 : pow2 1 = 2 := by rw [pow2_eq]; norm_num
      rwa [h1] at this
    have px := pow2_pos (ulpExp x)
    calc (roundHalfEven (x / pow2 (ulpExp x)) : ℚ) * pow2 (ulpExp x)
        ≤ 2 ^ 53 * pow2 (ulpExp x) := mul_le_mul_of_nonneg_right hxs' px.le
      _ = 2 ^ 52 * (pow2 (ulpExp x) * 2) := by ring
      _ ≤ 2 ^ 52 * pow2 (ulpExp y) := mul_le_mul_of_nonneg_left hp (by positivity)
      _ ≤ _ := mul_le_mul_of_nonneg_right hys' (pow2_pos _).le
  · unfold roundBinary
    rw [heq]
    refine mul_le_mul_of_nonneg_right ?_ (pow2_pos _).le
    have : roundHalfEven (x / pow2 (ulpExp y)) ≤ roundHalfEven (y / pow2 (ulpExp y)) :=
      roundHalfEven_mono (div_le_div_of_nonneg_right h (pow2_pos _).le)
    exact_mod_cast this

theorem roundBinary_mono {x y : ℚ} (h : x ≤ y) : roundBinary x ≤ roundBinary y := by
  rcases lt_trichotomy 0 x with hx | hx | hx
  · exact roundBinary_mono_pos hx h
  · subst hx; rw [roundBinary_zero]; exact roundBinary_nonneg h
  · rcases lt_or_le y 0 with hy | hy
    · have := roundBinary_mono_pos (neg_pos.mpr hy) (neg_le_neg h)
      rw [roundBinary_neg, roundBinary_neg] at this
      linarith
    · have h1 := roundBinary_nonneg hy
      have h2 := roundBinary_nonneg (neg_nonneg.mpr hx.le)
      rw [roundBinary_neg] at h2
      linarith

theorem fl_mono {x y : ℚ} (h : x ≤ y) : le (fl x) (fl y) = true := by
  have hr := roundBinary_mono h
  have hp := pow2_pos 1024
  unfold fl
  simp only
  split_ifs <;> simp [le] <;> linarith

theorem roundBinary_abs_sub_le (q : ℚ) : |roundBinary q - q| ≤ pow2 (ulpExp q) / 2 := by
  have hp := pow2_pos (ulpExp q)
  have h := roundHalfEven_abs_sub_le (q / pow2 (ulpExp q))
  unfold roundBinary
  have e : (roundHalfEven (q / pow2 (ulpExp q)) : ℚ) * pow2 (ulpExp q) - q =
      ((roundHalfEven (q / pow2 (ulpExp q)) : ℚ) - q / pow2 (ulpExp q)) * pow2 (ulpExp q) := by
    field_simp
  rw [e, abs_mul, abs_of_pos hp]
  calc _ ≤ 1 / 2 * pow2 (ulpExp q) := mul_le_mul_of_nonneg_right h hp.le
    _ = _ := by ring

theorem ilog2_le_of_abs_le {q : ℚ} {k : ℤ} (hq : q ≠ 0) (h : |q| ≤ pow2 k) : ilog2 q ≤ k := by
  obtain ⟨a, _⟩ := ilog2_spec q hq
  by_contra hc
  push_neg at hc
  have := pow2_lt_pow2 hc
  linarith

theorem le_ilog2_of_le_abs {q : ℚ} {k : ℤ} (hq : q ≠ 0) (h : pow2 k ≤ |q|) : k ≤ ilog2 q := by
  obtain ⟨_, b⟩ := ilog2_spec q hq
  by_contra hc
  push_neg at hc
  have := pow2_le_pow2 (show ilog2 q + 1 ≤ k by omega)
  linarith

/-- Absolute rounding error below a power of two. -/
theorem roundBinary_abs_err {q : ℚ} {k : ℤ} (hk : -1022 ≤ k) (h : |q| ≤ pow2 k) :
    |roundBinary q - q| ≤ pow2 (k - 53) := by
  by_cases hq : q = 0
  · subst hq; rw [roundBinary_zero]; simp; exact (pow2_pos _).le
  · have h1 := roundBinary_abs_sub_le q
    have h2 : ulpExp q ≤ k - 52 := by
      have := ilog2_le_of_abs_le hq h
      unfold ulpExp; omega
    have h3 := pow2_le_pow2 h2
    have h4 : pow2 (k - 52) = pow2 (k - 53) * 2 := by
      rw [show k - 52 = (k - 53) + 1 by ring, pow2_add]
      congr 1
    linarith

/-- Relative rounding error in the normal range. -/
theorem roundBinary_rel_err {q : ℚ} (h : pow2 (-1022) ≤ |q|) :
    |roundBinary q - q| ≤ |q| * pow2 (-53) := by
  have hq : q ≠ 0 := by
    intro h0; subst h0
    have := pow2_pos (-1022)
    simp at h; linarith
  have h1 := roundBinary_abs_sub_le q
  obtain ⟨a, _⟩ := ilog2_spec q hq
  have hn := le_ilog2_of_le_abs hq h
  have h2 : ulpExp q = ilog2 q + (-52) := by unfold ulpExp; omega
  rw [h2, pow2_add] at h1
  have h3 : pow2 (-52) = pow2 (-53) * 2 := by
    rw [show (-52 : ℤ) = (-53) + 1 by ring, pow2_add]
    congr 1
  have h4 := pow2_pos (-53)
  calc |roundBinary q - q| ≤ pow2 (ilog2 q) * pow2 (-52) / 2 := h1
    _ = pow2 (ilog2 q) * pow2 (-53) := by rw [h3]; ring
    _ ≤ _ := mul_le_mul_of_nonneg_right a h4.le

theorem roundBinary_pow2_1023 : roundBinary (pow2 1023) = pow2 1023 := by decide!

theorem fl_eq_fin {q : ℚ} (h : |q| ≤ pow2 1023) : fl q = fin (roundBinary q) := by
  rw [abs_le] at h
  have h1 := roundBinary_mono h.2
  have h2 := roundBinary_mono h.1
  rw [roundBinary_neg] at h2
  rw [roundBinary_pow2_1023] at h1 h2
  have h3 : pow2 1023 < pow2 1024 := pow2_lt_pow2 (by norm_num)
  unfold fl
  simp only
  rw [if_neg (by linarith), if_neg (by linarith)]

theorem fl_ne_nan (q : ℚ) : fl q ≠ nan := by
  unfold fl; simp only; split_ifs <;> simp

theorem fl_zero : fl 0 = fin 0 := by decide!

theorem mathPow10_two : mathPow10 2 = fin 100 := by decide!

theorem pow2_neg53 : pow2 (-53) = 1 / 9007199254740992 := by rw [pow2_eq]; norm_num
theorem pow2_neg52 : pow2 (-52) = 1 / 4503599627370496 := by rw [pow2_eq]; norm_num

/-- Rounding of a positive number of the normal range: the result is finite and
carries a relative error of at most `2^-53`. -/
theorem fl_normal {q : ℚ} (h1 : pow2 (-1022) ≤ q) (h2 : q ≤ pow2 1023) :
    fl q = fin (roundBinary q) ∧
      q * (1 - 1 / 9007199254740992) ≤ roundBinary q ∧
      roundBinary q ≤ q * (1 + 1 / 9007199254740992) := by
  have hq : 0 < q := lt_of_lt_of_le (pow2_pos _) h1
  have ha : |q| = q := abs_of_pos hq
  have h := roundBinary_rel_err (q := q) (by rw [ha]; exact h1)
  rw [ha, pow2_neg53, abs_le] at h
  refine ⟨fl_eq_fin (by rw [ha]; exact h2), ?_, ?_⟩ <;> linarith [h.1, h.2]

/-- What the helper `round(value, 2)` returns on a finite non-negative value
below `2^1000`: the double nearest to `k / 100` for an integer `k` that is the
half-up rounding of `100 * value` up to the floating-point error of the three
operations before `Math.round`. -/
theorem round_two_spec {p : ℚ} (h0 : 0 ≤ p) (h1 : p ≤ pow2 1000) :
    ∃ k : ℤ, Calculator.round (fin p) 2 = fl ((k : ℚ) / 100) ∧
      |(k : ℚ) / 100 - p| ≤ 5 / 1000 + pow2 (-51) * (p + 1) := by
  have e1023 : pow2 1023 = pow2 1000 * 8388608 := by
    rw [show (1023 : ℤ) = 1000 + 23 by norm_num, pow2_add]
    congr 1
  have e1022 : pow2 (-1022) ≤ 1 / 4503599627370496 := by
    rw [← pow2_neg52]; exact pow2_le_pow2 (by norm_num)
  have e51 : pow2 (-51) = 1 / 2251799813685248 := by rw [pow2_eq]; norm_num
  have hX : 1 ≤ pow2 1000 := by
    have := pow2_le_pow2 (show (0 : ℤ) ≤ 1000 by norm_num)
    rwa [show pow2 0 = 1 from rfl] at this
  obtain ⟨a1, a2, a3⟩ := fl_normal (q := p + pow2 (-52))
    (by rw [pow2_neg52]; linarith)
    (by rw [e1023, pow2_neg52]; linarith)
  set y := roundBinary (p + pow2 (-52)) with hy
  rw [pow2_neg52] at a2 a3
  obtain ⟨b1, b2, b3⟩ := fl_normal (q := y * 100)
    (by linarith)
    (by rw [e1023]; linarith)
  set s := roundBinary (y * 100) with hs
  refine ⟨⌊s + 1 / 2⌋, ?_, ?_⟩
  · unfold Calculator.round
    simp only [mathPow10_two, EPSILON, add, a1, mul, b1, mathRound, div]
    norm_num
  · have f1 := Int.floor_le (s + 1 / 2)
    have f2 := Int.lt_floor_add_one (s + 1 / 2)
    rw [e51, abs_le]
    constructor <;> linarith

/-- Known binary64 values: the doubles written `0.1` and `1/3`, the sum
`0.1 + 0.2 = 0.30000000000000004`, a tie in the subnormal range going to the
even neighbour, and the overflow threshold half a unit above
`Number.MAX_VALUE`. -/
theorem fl_known_values :
    fl (1 / 10) = fin (3602879701896397 / 36028797018963968) ∧
      fl (1 / 3) = fin (6004799503160661 / 18014398509481984) ∧
      add (ofRat (1 / 10)) (ofRat (2 / 10)) = fin (1351079888211149 / 4503599627370496) ∧
      ofRat (3 / 10) = fin (5404319552844595 / 18014398509481984) ∧
      fl (pow2 (-1075)) = fin 0 ∧
      fl (3 * pow2 (-1075)) = fin (2 * pow2 (-1074)) ∧
      fl MAX_VALUE = fin MAX_VALUE ∧
      fl (MAX_VALUE + pow2 970) = posInf ∧
      fl (MAX_VALUE + pow2 970 - pow2 900) = fin MAX_VALUE ∧
      mathRound (fin (5 / 2)) = fin 3 ∧
      mathRound (fin (-5 / 2)) = fin (-2) := by decide!

/-! ## The rounding helper, the factor table and the sort -/

theorem factors_eq : CONFIG.EMISSION_FACTORS =
    [("bicycle", fin 0), ("car", fin (1080863910568919 / 9007199254740992)),
     ("bus", fin (3206562934687793 / 36028797018963968)),
     ("truck", fin (1080863910568919 / 1125899906842624))] := by decide!

theorem fin_of_fl_eq {q r : ℚ} (h : fl q = fin r) : r = roundBinary q := by
  unfold fl at h
  simp only at h
  split_ifs at h
  injection h with h
  exact h.symm

theorem lookup_factor {m : String} {x : JSNumber}
    (h : CONFIG.EMISSION_FACTORS.lookup m = some x) :
    ∃ f : ℚ, x = fin f ∧ 0 ≤ f ∧ f ≤ 1 := by
  rw [factors_eq] at h
  simp only [List.lookup] at h
  split at h
  · injection h with h; exact ⟨_, h.symm, by norm_num, by norm_num⟩
  · split at h
    · injection h with h; exact ⟨_, h.symm, by norm_num, by norm_num⟩
    · split at h
      · injection h with h; exact ⟨_, h.symm, by norm_num, by norm_num⟩
      · split at h
        · injection h with h; exact ⟨_, h.symm, by norm_num, by norm_num⟩
        · exact absurd h (by simp)

theorem round_zero_two : Calculator.round (fin 0) 2 = fin 0 := by decide!

theorem calculateEmission_fin {d f : ℚ} {m : String} (hd : 0 ≤ d)
    (hm : CONFIG.EMISSION_FACTORS.lookup m = some (fin f)) :
    calculateEmission (fin d) m = some (Calculator.round (mul (fin d) (fin f)) 2) := by
  unfold calculateEmission
  simp [hm, isFinite, lt, not_lt.mpr hd]

theorem add_fin_ne_nan {x : JSNumber} (e : ℚ) (h : x ≠ nan) : add x (fin e) ≠ nan := by
  cases x with
  | nan => exact absurd rfl h
  | posInf => simp [add]
  | negInf => simp [add]
  | fin a => exact fl_ne_nan _

theorem mul_fin_ne_nan {x : JSNumber} {c : ℚ} (hc : 0 < c) (h : x ≠ nan) :
    mul x (fin c) ≠ nan := by
  cases x with
  | nan => exact absurd rfl h
  | posInf => simp [mul, infTimes, hc.ne', hc]
  | negInf => simp [mul, infTimes, hc.ne', hc]
  | fin a => exact fl_ne_nan _

theorem mathRound_ne_nan {x : JSNumber} (h : x ≠ nan) : mathRound x ≠ nan := by
  cases x <;> simp_all [mathRound]

theorem div_fin_ne_nan {x : JSNumber} {c : ℚ} (hc : 0 < c) (h : x ≠ nan) :
    div x (fin c) ≠ nan := by
  cases x with
  | nan => exact absurd rfl h
  | posInf => simp [div, not_lt.mpr hc.le]
  | negInf => simp [div, not_lt.mpr hc.le]
  | fin a => simp only [div, if_neg hc.ne']; exact fl_ne_nan _

theorem round_two_ne_nan {x : JSNumber} (h : x ≠ nan) : Calculator.round x 2 ≠ nan := by
  unfold Calculator.round
  simp only [mathPow10_two, EPSILON]
  exact div_fin_ne_nan (by norm_num)
    (mathRound_ne_nan (mul_fin_ne_nan (by norm_num) (add_fin_ne_nan _ h)))

theorem le_trans_js {x y z : JSNumber} (h1 : le x y = true) (h2 : le y z = true) :
    le x z = true := by
  cases x <;> cases y <;> cases z <;> simp_all [le]
  exact h1.trans h2

theorem fl_pow2_min : fl (pow2 (-1074)) = fin (pow2 (-1074)) := by decide!

theorem lt_zero_of_le_fin {c : ℚ} {z : JSNumber} (hc : 0 < c) (h : le (fin c) z = true) :
    lt (fin 0) z = true := by
  cases z <;> simp_all [le, lt]
  linarith

theorem not_lt_zero_of_le_zero {z : JSNumber} (h : le z (fin 0) = true) :
    lt (fin 0) z = false := by
  cases z <;> simp_all [le, lt]

/-- A finite result of `fl` is an integer multiple of `2^-1074`. -/
theorem fl_onGrid {q r : ℚ} (h : fl q = fin r) : ∃ n : ℤ, r = n * pow2 (-1074) := by
  have hr := fin_of_fl_eq h
  have he : 0 ≤ ulpExp q + 1074 := by unfold ulpExp; omega
  refine ⟨roundHalfEven (q / pow2 (ulpExp q)) * (2 ^ (ulpExp q + 1074).toNat : ℕ), ?_⟩
  rw [hr]
  unfold roundBinary
  have : pow2 (ulpExp q) = pow2 (ulpExp q + 1074) * pow2 (-1074) := by
    rw [← pow2_add]; congr 1; ring
  rw [this]
  have h2 : pow2 (ulpExp q + 1074) = ((2 ^ (ulpExp q + 1074).toNat : ℕ) : ℚ) := by
    unfold pow2; rw [if_pos he]
  rw [h2]
  push_cast
  ring

/-- The values the comparator of `calculateAllModes` meets: not `NaN`, and on the
binary64 grid when finite. -/
theorem sub_pos_imp {x y : JSNumber} (hx : x ≠ nan) (hy : y ≠ nan)
    (h : lt (fin 0) (sub x y) = true) : le y x = true := by
  cases x with
  | nan => exact absurd rfl hx
  | posInf => cases y <;> simp_all [le]
  | negInf => cases y <;> simp_all [le, sub, add, neg, lt]
  | fin a =>
    cases y with
    | nan => exact absurd rfl hy
    | posInf => simp [sub, add, neg, lt] at h
    | negInf => simp [le]
    | fin b =>
      simp only [le, decide_eq_true_eq]
      by_contra hc
      push_neg at hc
      have h1 : le (fl (a + -b)) (fl 0) = true := fl_mono (by linarith)
      rw [fl_zero] at h1
      have := not_lt_zero_of_le_zero h1
      rw [show sub (fin a) (fin b) = fl (a + -b) from rfl] at h
      rw [this] at h
      exact absurd h (by simp)

theorem sub_not_pos_imp {x y : JSNumber} (hx : x ≠ nan) (hy : y ≠ nan)
    (gx : ∀ q, x = fin q → ∃ n : ℤ, q = n * pow2 (-1074))
    (gy : ∀ q, y = fin q → ∃ n : ℤ, q = n * pow2 (-1074))
    (h : lt (fin 0) (sub x y) = false) : le x y = true := by
  cases x with
  | nan => exact absurd rfl hx
  | posInf => cases y <;> simp_all [le, sub, add, neg, lt]
  | negInf => cases y <;> simp_all [le]
  | fin a =>
    cases y with
    | nan => exact absurd rfl hy
    | posInf => simp [le]
    | negInf => simp [sub, add, neg, lt] at h
    | fin b =>
      simp only [le, decide_eq_true_eq]
      by_contra hc
      push_neg at hc
      obtain ⟨n1, h1⟩ := gx a rfl
      obtain ⟨n2, h2⟩ := gy b rfl
      have hg := pow2_pos (-1074)
      have hn : n2 < n1 := by
        by_contra hn
        push_neg at hn
        have : (n1 : ℚ) ≤ n2 := by exact_mod_cast hn
        have := mul_le_mul_of_nonneg_right this hg.le
        linarith
      have hn' : (n2 : ℚ) + 1 ≤ n1 := by exact_mod_cast hn
      have hge : pow2 (-1074) ≤ a + -b := by
        have := mul_le_mul_of_nonneg_right hn' hg.le
        rw [h1, h2]; linarith
      have h3 : le (fl (pow2 (-1074))) (fl (a + -b)) = true := fl_mono hge
      rw [fl_pow2_min] at h3
      have := lt_zero_of_le_fin hg h3
      rw [show sub (fin a) (fin b) = fl (a + -b) from rfl] at h
      rw [this] at h
      exact absurd h (by simp)

theorem sortInsert_perm {α : Type} (cmp : α → α → JSNumber) (a : α) (l : List α) :
    (sortInsert cmp a l).Perm (a :: l) := by
  induction l with
  | nil => simp [sortInsert]
  | cons b l ih =>
    unfold sortInsert
    split_ifs
    · exact (List.Perm.cons b ih).trans (List.Perm.swap a b l)
    · exact List.Perm.refl _

theorem arraySort_perm {α : Type} (cmp : α → α → JSNumber) (l : List α) :
    (arraySort cmp l).Perm l := by
  induction l with
  | nil => simp [arraySort]
  | cons a l ih =>
    show (sortInsert cmp a (arraySort cmp l)).Perm (a :: l)
    exact (sortInsert_perm cmp a _).trans (List.Perm.cons a ih)

/-- Keys the comparator `a.key - b.key` orders consistently. -/
theorem sortInsert_sorted {α : Type} (key : α → JSNumber) (a : α) (l : List α)
    (ha : key a ≠ nan ∧ ∀ q, key a = fin q → ∃ n : ℤ, q = n * pow2 (-1074))
    (hl : ∀ b ∈ l, key b ≠ nan ∧ ∀ q, key b = fin q → ∃ n : ℤ, q = n * pow2 (-1074))
    (hs : l.Pairwise (fun x y => le (key x) (key y) = true)) :
    (sortInsert (fun x y => sub (key x) (key y)) a l).Pairwise
      (fun x y => le (key x) (key y) = true) := by
  induction l with
  | nil => simp [sortInsert]
  | cons b l ih =>
    have hb := hl b (List.mem_cons_self _ _)
    have hl' : ∀ c ∈ l, key c ≠ nan ∧ ∀ q, key c = fin q → ∃ n : ℤ, q = n * pow2 (-1074) :=
      fun c hc => hl c (List.mem_cons_of_mem _ hc)
    rw [List.pairwise_cons] at hs
    unfold sortInsert
    by_cases h : lt (fin 0) (sub (key a) (key b)) = true
    · simp only [h, if_true]
      rw [List.pairwise_cons]
      refine ⟨?_, ih hl' hs.2⟩
      intro x hx
      rcases List.mem_cons.mp ((sortInsert_perm _ a l).mem_iff.mp hx) with rfl | hx
      · exact sub_pos_imp ha.1 hb.1 h
      · exact hs.1 x hx
    · rw [Bool.not_eq_true] at h
      simp only [h, Bool.false_eq_true, if_false]
      have hab := sub_not_pos_imp ha.1 hb.1 ha.2 hb.2 h
      rw [List.pairwise_cons]
      refine ⟨?_, List.pairwise_cons.mpr hs⟩
      intro x hx
      rcases List.mem_cons.mp hx with rfl | hx
      · exact hab
      · exact le_trans_js hab (hs.1 x hx)

theorem arraySort_sorted {α : Type} (key : α → JSNumber) (l : List α)
    (hl : ∀ b ∈ l, key b ≠ nan ∧ ∀ q, key b = fin q → ∃ n : ℤ, q = n * pow2 (-1074)) :
    (arraySort (fun x y => sub (key x) (key y)) l).Pairwise
      (fun x y => le (key x) (key y) = true) := by
  induction l with
  | nil => simp [arraySort]
  | cons a l ih =>
    have hl' : ∀ c ∈ l, key c ≠ nan ∧ ∀ q, key c = fin q → ∃ n : ℤ, q = n * pow2 (-1074) :=
      fun c hc => hl c (List.mem_cons_of_mem _ hc)
    show (sortInsert _ a (arraySort _ l)).Pairwise _
    refine sortInsert_sorted key a _ (hl a (List.mem_cons_self _ _)) ?_ (ih hl')
    intro b hb
    exact hl' b ((arraySort_perm _ l).mem_iff.mp hb)

theorem round_two_onGrid {x : JSNumber} {q : ℚ} (h : Calculator.round x 2 = fin q) :
    ∃ n : ℤ, q = n * pow2 (-1074) := by
  unfold Calculator.round at h
  simp only [mathPow10_two] at h
  generalize mathRound (mul (add x EPSILON) (fin 100)) = w at h
  cases w with
  | nan => simp [div] at h
  | posInf => simp only [div] at h; split_ifs at h
  | negInf => simp only [div] at h; split_ifs at h
  | fin a =>
    simp only [div] at h
    rw [if_neg (by norm_num)] at h
    exact fl_onGrid h

theorem lookup_car : CONFIG.EMISSION_FACTORS.lookup "car" =
    some (fin (1080863910568919 / 9007199254740992)) := by decide!
theorem lookup_bicycle : CONFIG.EMISSION_FACTORS.lookup "bicycle" = some (fin 0) := by decide!
theorem lookup_bus : CONFIG.EMISSION_FACTORS.lookup "bus" =
    some (fin (3206562934687793 / 36028797018963968)) := by decide!
theorem lookup_truck : CONFIG.EMISSION_FACTORS.lookup "truck" =
    some (fin (1080863910568919 / 1125899906842624)) := by decide!

theorem roundBinary_MAX_VALUE : roundBinary MAX_VALUE = MAX_VALUE := by decide!

theorem MAX_VALUE_lt : MAX_VALUE < pow2 1024 := by decide!

theorem pow2_1023_le_MAX_VALUE : pow2 1023 ≤ MAX_VALUE := by decide!

theorem fl_eq_fin_of_le_max {q : ℚ} (h : |q| ≤ MAX_VALUE) : fl q = fin (roundBinary q) := by
  rw [abs_le] at h
  have h1 := roundBinary_mono h.2
  have h2 := roundBinary_mono h.1
  rw [roundBinary_neg] at h2
  rw [roundBinary_MAX_VALUE] at h1 h2
  have h3 := MAX_VALUE_lt
  unfold fl
  simp only
  rw [if_neg (by linarith), if_neg (by linarith)]

/-- Rounding of a positive number between the smallest normal and the largest
finite double: finite, with a relative error of at most `2^-53`. -/
theorem fl_normal_max {q : ℚ} (h1 : pow2 (-1022) ≤ q) (h2 : q ≤ MAX_VALUE) :
    fl q = fin (roundBinary q) ∧
      q * (1 - 1 / 9007199254740992) ≤ roundBinary q ∧
      roundBinary q ≤ q * (1 + 1 / 9007199254740992) := by
  have hq : 0 < q := lt_of_lt_of_le (pow2_pos _) h1
  have ha : |q| = q := abs_of_pos hq
  have h := roundBinary_rel_err (q := q) (by rw [ha]; exact h1)
  rw [ha, pow2_neg53, abs_le] at h
  refine ⟨fl_eq_fin_of_le_max (by rw [ha]; exact h2), ?_, ?_⟩ <;> linarith [h.1, h.2]

/-- The helper `round(w, 2)` on a value within `0.0049` of `k / 100`. -/
theorem round_two_near {w : ℚ} {k : ℤ} (h0 : 0 ≤ w) (h1 : w ≤ 1048576)
    (h : |100 * w - k| ≤ 49 / 100) : Calculator.round (fin w) 2 = fl ((k : ℚ) / 100) := by
  have hX : (1048576 : ℚ) ≤ pow2 1000 := by
    have := pow2_le_pow2 (show (20 : ℤ) ≤ 1000 by norm_num)
    rwa [show pow2 20 = 1048576 by rw [pow2_eq]; norm_num] at this
  obtain ⟨k', e, hk'⟩ := round_two_spec h0 (h1.trans hX)
  have e51 : pow2 (-51) = 1 / 2251799813685248 := by rw [pow2_eq]; norm_num
  rw [e51] at hk'
  have : k' = k := by
    rw [abs_le] at h hk'
    have a1 : ((k' - k : ℤ) : ℚ) < 1 := by push_cast; linarith
    have a2 : (-1 : ℚ) < ((k' - k : ℤ) : ℚ) := by push_cast; linarith
    have b1 : k' - k < 1 := by exact_mod_cast a1
    have b2 : -1 < k' - k := by exact_mod_cast a2
    omega
  rw [e, this]
theorem ofRat_100 : ofRat 100 = fin 100 := by decide!

theorem normal_of_const {q : ℚ} (h1 : 1 / 4194304 ≤ q) (h2 : q ≤ 4194304) :
    pow2 (-1022) ≤ q ∧ q ≤ MAX_VALUE := by
  constructor
  · have := pow2_le_pow2 (show (-1022 : ℤ) ≤ -22 by norm_num)
    rw [show pow2 (-22) = 1 / 4194304 by rw [pow2_eq]; norm_num] at this
    exact this.trans h1
  · have := pow2_1023_le_MAX_VALUE
    have h3 := pow2_le_pow2 (show (22 : ℤ) ≤ 1023 by norm_num)
    rw [show pow2 22 = 4194304 by rw [pow2_eq]; norm_num] at h3
    exact h2.trans (h3.trans this)

theorem normal_of_scaled {d q : ℚ} (hd1 : pow2 (-1000) ≤ d) (hd2 : d ≤ MAX_VALUE)
    (h1 : d * (1 / 4194304) ≤ q) (h2 : q ≤ d) : pow2 (-1022) ≤ q ∧ q ≤ MAX_VALUE := by
  refine ⟨?_, h2.trans hd2⟩
  have e : pow2 (-1022) = pow2 (-1000) * (1 / 4194304) := by
    rw [show (-1022 : ℤ) = -1000 + -22 by norm_num, pow2_add]
    congr 1
  rw [e]
  exact le_trans (mul_le_mul_of_nonneg_right hd1 (by norm_num)) h1

/-- The percentage `round((emission / carEmission) * 100, 2)` of a mode with the
factor `f`, when the ratio of the two factors lies between `l` and `u` with a
little room and `k / 100` is the only two-decimal value near that interval. -/
theorem percentage_eval {d f l u : ℚ} {k : ℤ}
    (hd1 : pow2 (-1000) ≤ d) (hd2 : d ≤ MAX_VALUE)
    (hf1 : 1 / 1024 ≤ f) (hf2 : f ≤ 1)
    (hlo : l * (1080863910568919 / 9007199254740992 * (1 + 1 / 9007199254740992))
      ≤ f * (1 - 1 / 9007199254740992))
    (hhi : f * (1 + 1 / 9007199254740992)
      ≤ u * (1080863910568919 / 9007199254740992 * (1 - 1 / 9007199254740992)))
    (hlo0 : 1 / 1024 ≤ l) (hhi1 : u ≤ 1024)
    (hk1 : (k : ℚ) - 49 / 100 ≤
      100 * (l * (1 - 1 / 9007199254740992) * 100 * (1 - 1 / 9007199254740992)))
    (hk2 : 100 * (u * (1 + 1 / 9007199254740992) * 100 * (1 + 1 / 9007199254740992))
      ≤ (k : ℚ) + 49 / 100) :
    Calculator.round (mul (div (mul (fin d) (fin f))
      (mul (fin d) (fin (1080863910568919 / 9007199254740992)))) (ofRat 100)) 2
      = fl ((k : ℚ) / 100) := by
  have hd0 : 0 < d := lt_of_lt_of_le (pow2_pos (-1000)) hd1
  have hP1 : d * (1 / 1024) ≤ d * f := mul_le_mul_of_nonneg_left hf1 hd0.le
  have hP2 : d * f ≤ d * 1 := mul_le_mul_of_nonneg_left hf2 hd0.le
  have nC := normal_of_scaled (q := d * (1080863910568919 / 9007199254740992)) hd1 hd2
    (by linarith only [hd0]) (by linarith only [hd0])
  have nE := normal_of_scaled (q := d * f) hd1 hd2
    (by linarith only [hd0, hP1]) (by linarith only [hd0, hP2])
  clear hd1 hd2
  -- the car emission
  obtain ⟨c1, c2, c3⟩ := fl_normal_max nC.1 nC.2
  set C := roundBinary (d * (1080863910568919 / 9007199254740992)) with hC
  have hCpos : 0 < C := by linarith only [c2, hd0]
  -- the emission of the mode
  obtain ⟨e1, e2, e3⟩ := fl_normal_max nE.1 nE.2
  set E := roundBinary (d * f) with hE
  clear nC nE
  -- the ratio
  have hlo' : 0 < l := by linarith only [hlo0]
  have hhi' : 0 < u := by
    have : 0 < f * (1 + 1 / 9007199254740992) := by
      apply mul_pos <;> linarith only [hf1]
    by_contra hc
    push_neg at hc
    have : u * (1080863910568919 / 9007199254740992 * (1 - 1 / 9007199254740992)) ≤ 0 :=
      mul_nonpos_of_nonpos_of_nonneg hc (by norm_num)
    linarith
  have r1 : l ≤ E / C := by
    rw [le_div_iff₀ hCpos]
    have a := mul_le_mul_of_nonneg_left c3 hlo'.le
    have b := mul_le_mul_of_nonneg_left hlo hd0.le
    nlinarith only [a, b, e2]
  have r2 : E / C ≤ u := by
    rw [div_le_iff₀ hCpos]
    have a := mul_le_mul_of_nonneg_left c2 hhi'.le
    have b := mul_le_mul_of_nonneg_left hhi hd0.le
    nlinarith only [a, b, e3]
  have nR := normal_of_const (q := E / C) (by linarith only [r1, hlo0])
    (by linarith only [r2, hhi1])
  obtain ⟨q1, q2, q3⟩ := fl_normal_max nR.1 nR.2
  set R := roundBinary (E / C) with hR
  have hR1 : l * (1 - 1 / 9007199254740992) ≤ R :=
    le_trans (mul_le_mul_of_nonneg_right r1 (by norm_num)) q2
  have hR2 : R ≤ u * (1 + 1 / 9007199254740992) :=
    le_trans q3 (mul_le_mul_of_nonneg_right r2 (by norm_num))
  have nW := normal_of_const (q := R * 100) (by linarith only [hR1, hlo0])
    (by linarith only [hR2, hhi1])
  obtain ⟨w1, w2, w3⟩ := fl_normal_max nW.1 nW.2
  set W := roundBinary (R * 100) with hW
  clear nR nW
  have hW1 : l * (1 - 1 / 9007199254740992) * 100 * (1 - 1 / 9007199254740992) ≤ W := by
    refine le_trans ?_ w2
    exact mul_le_mul_of_nonneg_right (by linarith only [hR1]) (by norm_num)
  have hW2 : W ≤ u * (1 + 1 / 9007199254740992) * 100 * (1 + 1 / 9007199254740992) := by
    refine le_trans w3 ?_
    exact mul_le_mul_of_nonneg_right (by linarith only [hR2]) (by norm_num)
  have hfin : mul (div (mul (fin d) (fin f))
      (mul (fin d) (fin (1080863910568919 / 9007199254740992)))) (ofRat 100) = fin W := by
    rw [ofRat_100]
    simp only [mul, e1, c1, div, if_neg hCpos.ne', q1, w1]
  rw [hfin]
  have g0 : 0 ≤ W := by linarith only [hW1, hlo0]
  have g1 : W ≤ 1048576 := by linarith only [hW2, hhi1]
  have g2 : |100 * W - k| ≤ 49 / 100 := by
    rw [abs_le]; constructor
    · linarith only [hW1, hk1]
    · linarith only [hW2, hk2]
  exact round_two_near g0 g1 g2

theorem ofRat_car : ofRat (12 / 100) = fin (1080863910568919 / 9007199254740992) := by decide!

/-- The list `calculateAllModes` sorts, entry by entry. -/
theorem calculateAllModes_unfold {d : ℚ} (hd : 0 ≤ d) :
    calculateAllModes (fin d) =
      some (arraySort (fun a b => sub a.emission b.emission)
        (CONFIG.EMISSION_FACTORS.map fun x =>
          { mode := x.1
            emission := Calculator.round (mul (fin d) x.2) 2
            percentageVsCar :=
              if mul (fin d) (ofRat (12 / 100)) ≠ fin 0 then
                some (Calculator.round
                  (mul (div (mul (fin d) x.2) (mul (fin d) (ofRat (12 / 100)))) (ofRat 100)) 2)
              else none })) := by
  unfold calculateAllModes
  simp only [isFinite, lt, not_lt.mpr hd, lookup_car, ofRat_car]
  rfl

theorem div_zero_of_ne {x : JSNumber} (h1 : x ≠ nan) (h2 : x ≠ fin 0) :
    div (fin 0) x = fin 0 := by
  cases x with
  | nan => exact absurd rfl h1
  | posInf => rfl
  | negInf => rfl
  | fin c =>
    have hc : c ≠ 0 := fun h => h2 (by rw [h])
    simp only [div, if_neg hc, zero_div]
    exact fl_zero

theorem percentage_bicycle {d : ℚ} (hc : mul (fin d) (ofRat (12 / 100)) ≠ fin 0) :
    Calculator.round (mul (div (mul (fin d) (fin 0)) (mul (fin d) (ofRat (12 / 100))))
      (ofRat 100)) 2 = fin 0 := by
  have h1 : mul (fin d) (fin 0) = fin 0 := by
    show fl (d * 0) = fin 0
    rw [mul_zero]; exact fl_zero
  have h2 : mul (fin d) (ofRat (12 / 100)) ≠ nan := by
    rw [ofRat_car]; exact fl_ne_nan _
  rw [h1, div_zero_of_ne h2 hc, ofRat_100]
  have h3 : mul (fin 0) (fin 100) = fin 0 := by
    show fl (0 * 100) = fin 0
    rw [zero_mul]; exact fl_zero
  rw [h3, round_zero_two]

theorem car_ne_zero {d : ℚ} (hd1 : pow2 (-1000) ≤ d) (hd2 : d ≤ MAX_VALUE) :
    mul (fin d) (ofRat (12 / 100)) ≠ fin 0 := by
  have hd0 : 0 < d := lt_of_lt_of_le (pow2_pos (-1000)) hd1
  have nC := normal_of_scaled (q := d * (1080863910568919 / 9007199254740992)) hd1 hd2
    (by linarith only [hd0]) (by linarith only [hd0])
  obtain ⟨c1, c2, _⟩ := fl_normal_max nC.1 nC.2
  rw [ofRat_car]
  show fl (d * (1080863910568919 / 9007199254740992)) ≠ fin 0
  rw [c1]
  intro h
  injection h with h
  rw [h] at c2
  linarith only [c2, hd0]

theorem ofRat_1000 : CONFIG.KG_PER_CREDIT = fin 1000 := by decide!
theorem ofRat_50 : CONFIG.PRICE_MIN_BRL = fin 50 := by decide!
theorem ofRat_150 : CONFIG.PRICE_MAX_BRL = fin 150 := by decide!

theorem le_negInf {z : JSNumber} (h : z ≠ nan) : le negInf z = true := by
  cases z <;> simp_all [le]

theorem le_posInf {z : JSNumber} (h : z ≠ nan) : le z posInf = true := by
  cases z <;> simp_all [le]

theorem ne_nan_of_le_left {x y : JSNumber} (h : le x y = true) : x ≠ nan := by
  cases x <;> simp_all [le]

theorem ne_nan_of_le_right {x y : JSNumber} (h : le x y = true) : y ≠ nan := by
  cases x <;> cases y <;> simp_all [le]

theorem add_fin_mono {x y : JSNumber} (c : ℚ) (h : le x y = true) :
    le (add x (fin c)) (add y (fin c)) = true := by
  have hy := add_fin_ne_nan c (ne_nan_of_le_right h)
  have hx := add_fin_ne_nan c (ne_nan_of_le_left h)
  cases x with
  | nan => simp [le] at h
  | negInf => exact le_negInf hy
  | posInf =>
    cases y with
    | posInf => rfl
    | _ => simp [le] at h
  | fin a =>
    cases y with
    | nan => simp [le] at h
    | negInf => simp [le] at h
    | posInf => exact le_posInf hx
    | fin b =>
      simp only [le, decide_eq_true_eq] at h
      exact fl_mono (by linarith)

theorem mul_fin_mono {x y : JSNumber} {c : ℚ} (hc : 0 < c) (h : le x y = true) :
    le (mul x (fin c)) (mul y (fin c)) = true := by
  have hy := mul_fin_ne_nan hc (ne_nan_of_le_right h)
  have hx := mul_fin_ne_nan hc (ne_nan_of_le_left h)
  cases x with
  | nan => simp [le] at h
  | negInf =>
    have : mul negInf (fin c) = negInf := by simp [mul, infTimes, hc.ne', hc]
    rw [this]; exact le_negInf hy
  | posInf =>
    cases y with
    | posInf => simp [mul, infTimes, hc.ne', hc, le]
    | _ => simp [le] at h
  | fin a =>
    cases y with
    | nan => simp [le] at h
    | negInf => simp [le] at h
    | posInf =>
      have : mul posInf (fin c) = posInf := by simp [mul, infTimes, hc.ne', hc]
      rw [this]; exact le_posInf hx
    | fin b =>
      simp only [le, decide_eq_true_eq] at h
      exact fl_mono (mul_le_mul_of_nonneg_right h hc.le)

theorem mathRound_mono {x y : JSNumber} (h : le x y = true) :
    le (mathRound x) (mathRound y) = true := by
  cases x <;> cases y <;> simp_all [le, mathRound]
  exact_mod_cast Int.floor_le_floor (by linarith)

theorem div_fin_mono {x y : JSNumber} {c : ℚ} (hc : 0 < c) (h : le x y = true) :
    le (div x (fin c)) (div y (fin c)) = true := by
  have hy := div_fin_ne_nan hc (ne_nan_of_le_right h)
  have hx := div_fin_ne_nan hc (ne_nan_of_le_left h)
  cases x with
  | nan => simp [le] at h
  | negInf =>
    have : div negInf (fin c) = negInf := by simp [div, not_lt.mpr hc.le]
    rw [this]; exact le_negInf hy
  | posInf =>
    cases y with
    | posInf => simp [div, not_lt.mpr hc.le, le]
    | _ => simp [le] at h
  | fin a =>
    cases y with
    | nan => simp [le] at h
    | negInf => simp [le] at h
    | posInf =>
      have : div posInf (fin c) = posInf := by simp [div, not_lt.mpr hc.le]
      rw [this]; exact le_posInf hx
    | fin b =>
      simp only [le, decide_eq_true_eq] at h
      simp only [div, if_neg hc.ne']
      exact fl_mono (div_le_div_of_nonneg_right h hc.le)

/-- The helper `round(·, 2)` is monotone. -/
theorem round_two_mono {x y : JSNumber} (h : le x y = true) :
    le (Calculator.round x 2) (Calculator.round y 2) = true := by
  unfold Calculator.round
  simp only [mathPow10_two, EPSILON]
  exact div_fin_mono (by norm_num) (mathRound_mono (mul_fin_mono (by norm_num)
    (add_fin_mono _ h)))

theorem lt_of_le_neg {z : JSNumber} {c : ℚ} (hc : c < 0) (h : le z (fin c) = true) :
    lt z (fin 0) = true := by
  cases z <;> simp_all [le, lt]
  linarith

/-- Rounding of a non-negative number up to `2^29`: finite, non-negative, with an
absolute error of at most `2^-24`. -/
theorem fl_small {q : ℚ} (h0 : 0 ≤ q) (h1 : q ≤ 536870912) :
    fl q = fin (roundBinary q) ∧ 0 ≤ roundBinary q ∧ |roundBinary q - q| ≤ 1 / 16777216 := by
  have e29 : pow2 29 = 536870912 := by rw [pow2_eq]; norm_num
  have e24 : pow2 (29 - 53) = 1 / 16777216 := by rw [pow2_eq]; norm_num
  have ha : |q| ≤ pow2 29 := by rw [abs_of_nonneg h0, e29]; exact h1
  refine ⟨fl_eq_fin ?_, roundBinary_nonneg h0, ?_⟩
  · exact ha.trans (pow2_le_pow2 (by norm_num))
  · have := roundBinary_abs_err (k := 29) (by norm_num) ha
    rwa [e24] at this

/-- The helper `round(p, 2)` on a non-negative `p` up to `2^28`: the result is the
finite double `r` nearest to `k / 100` for a natural number of cents `k`. -/
theorem round_two_small {p : ℚ} (h0 : 0 ≤ p) (h1 : p ≤ 268435456) :
    ∃ (k : ℤ) (r : ℚ), Calculator.round (fin p) 2 = fl ((k : ℚ) / 100) ∧
      fl ((k : ℚ) / 100) = fin r ∧ 0 ≤ r ∧ |r - (k : ℚ) / 100| ≤ 1 / 16777216 ∧
      |(k : ℚ) / 100 - p| ≤ 5 / 1000 + 1 / 2251799813685248 * (p + 1) := by
  have hX : (268435456 : ℚ) ≤ pow2 1000 := by
    have := pow2_le_pow2 (show (28 : ℤ) ≤ 1000 by norm_num)
    rwa [show pow2 28 = 268435456 by rw [pow2_eq]; norm_num] at this
  obtain ⟨k, e, hk⟩ := round_two_spec h0 (h1.trans hX)
  rw [show pow2 (-51) = 1 / 2251799813685248 by rw [pow2_eq]; norm_num] at hk
  have hk' := abs_le.mp hk
  have k0 : 0 ≤ k := by
    have : (-1 : ℚ) < k := by linarith only [hk'.1, h0, h1]
    have : (-1 : ℤ) < k := by exact_mod_cast this
    omega
  have k0' : (0 : ℚ) ≤ k := by exact_mod_cast k0
  obtain ⟨f1, f2, f3⟩ := fl_small (q := (k : ℚ) / 100) (by positivity)
    (by linarith only [hk'.2, h0, h1])
  exact ⟨k, _, e, f1, f2, f3, hk⟩

theorem add_prices : add CONFIG.PRICE_MIN_BRL CONFIG.PRICE_MAX_BRL = fin 200 := by decide!

/-! ## The rounding helper on arguments of either sign, at two and four decimals -/

theorem roundBinary_err (q : ℚ) :
    |roundBinary q - q| ≤ |q| * (1 / 9007199254740992) + pow2 (-1075) := by
  have hτ := pow2_pos (-1075)
  by_cases h : pow2 (-1022) ≤ |q|
  · have := roundBinary_rel_err h
    rw [pow2_neg53] at this
    linarith
  · rw [not_le] at h
    have := roundBinary_abs_err (q := q) (k := -1022) le_rfl h.le
    rw [show (-1022 : ℤ) - 53 = -1075 by norm_num] at this
    have h0 : 0 ≤ |q| * (1 / 9007199254740992) := by positivity
    linarith

theorem mathPow10_four : mathPow10 4 = fin 10000 := by decide!

theorem round_two_spec_abs {p : ℚ} (h1 : |p| ≤ pow2 1001) :
    ∃ k : ℤ, Calculator.round (fin p) 2 = fl ((k : ℚ) / 100) ∧
      |(k : ℚ) / 100 - p| ≤ 1 / (2 * 100) + pow2 (-51) * (|p| + 1) := by
  have e1023 : pow2 1023 = pow2 1001 * 4194304 := by
    rw [show (1023 : ℤ) = 1001 + 22 by norm_num, pow2_add]
    congr 1
  have eτ : pow2 (-1075) ≤ 1 / 1152921504606846976 := by
    have : pow2 (-60) = 1 / 1152921504606846976 := by rw [pow2_eq]; norm_num
    rw [← this]; exact pow2_le_pow2 (by norm_num)
  have hτ := pow2_pos (-1075)
  have e51 : pow2 (-51) = 1 / 2251799813685248 := by rw [pow2_eq]; norm_num
  have hX : 1 ≤ pow2 1001 := by
    have := pow2_le_pow2 (show (0 : ℤ) ≤ 1001 by norm_num)
    rwa [show pow2 0 = 1 from rfl] at this
  obtain ⟨a, ha⟩ : ∃ a, a = |p| := ⟨_, rfl⟩
  rw [← ha] at h1 ⊢
  have ha0 : 0 ≤ a := ha ▸ abs_nonneg p
  have hp := abs_le.mp (le_of_eq ha.symm)
  have y0 := roundBinary_err (p + pow2 (-52))
  rw [pow2_neg52] at y0
  have hq : |p + 1 / 4503599627370496| ≤ a + 1 / 4503599627370496 := by
    rw [abs_le]; constructor <;> linarith
  set y := roundBinary (p + 1 / 4503599627370496) with hy
  have y1 := abs_le.mp y0
  have hyb : |y| ≤ 2 * a + 1 := by
    rw [abs_le]; constructor <;> linarith
  have s0 := roundBinary_err (y * 100)
  have hq2 : |y * 100| = |y| * 100 := by rw [abs_mul]; norm_num
  rw [hq2] at s0
  set s := roundBinary (y * 100) with hs
  have s1 := abs_le.mp s0
  have fy : fl (p + 1 / 4503599627370496) = fin y := by
    apply fl_eq_fin
    rw [e1023]
    linarith
  have fs : fl (y * 100) = fin s := by
    apply fl_eq_fin
    rw [hq2, e1023]
    linarith
  refine ⟨⌊s + 1 / 2⌋, ?_, ?_⟩
  · unfold Calculator.round
    simp only [mathPow10_two, EPSILON, add, pow2_neg52, fy, mul, fs, mathRound, div]
    norm_num
  · have f1 := Int.floor_le (s + 1 / 2)
    have f2 := Int.lt_floor_add_one (s + 1 / 2)
    have hyabs := abs_le.mp hyb
    rw [e51, abs_le]
    constructor <;> linarith

theorem round_four_spec_abs {p : ℚ} (h1 : |p| ≤ pow2 1001) :
    ∃ k : ℤ, Calculator.round (fin p) 4 = fl ((k : ℚ) / 10000) ∧
      |(k : ℚ) / 10000 - p| ≤ 1 / (2 * 10000) + pow2 (-51) * (|p| + 1) := by
  have e1023 : pow2 1023 = pow2 1001 * 4194304 := by
    rw [show (1023 : ℤ) = 1001 + 22 by norm_num, pow2_add]
    congr 1
  have eτ : pow2 (-1075) ≤ 1 / 1152921504606846976 := by
    have : pow2 (-60) = 1 / 1152921504606846976 := by rw [pow2_eq]; norm_num
    rw [← this]; exact pow2_le_pow2 (by norm_num)
  have hτ := pow2_pos (-1075)
  have e51 : pow2 (-51) = 1 / 2251799813685248 := by rw [pow2_eq]; norm_num
  have hX : 1 ≤ pow2 1001 := by
    have := pow2_le_pow2 (show (0 : ℤ) ≤ 1001 by norm_num)
    rwa [show pow2 0 = 1 from rfl] at this
  obtain ⟨a, ha⟩ : ∃ a, a = |p| := ⟨_, rfl⟩
  rw [← ha] at h1 ⊢
  have ha0 : 0 ≤ a := ha ▸ abs_nonneg p
  have hp := abs_le.mp (le_of_eq ha.symm)
  have y0 := roundBinary_err (p + pow2 (-52))
  rw [pow2_neg52] at y0
  have hq : |p + 1 / 4503599627370496| ≤ a + 1 / 4503599627370496 := by
    rw [abs_le]; constructor <;> linarith
  set y := roundBinary (p + 1 / 4503599627370496) with hy
  have y1 := abs_le.mp y0
  have hyb : |y| ≤ 2 * a + 1 := by
    rw [abs_le]; constructor <;> linarith
  have s0 := roundBinary_err (y * 10000)
  have hq2 : |y * 10000| = |y| * 10000 := by rw [abs_mul]; norm_num
  rw [hq2] at s0
  set s := roundBinary (y * 10000) with hs
  have s1 := abs_le.mp s0
  have fy : fl (p + 1 / 4503599627370496) = fin y := by
    apply fl_eq_fin
    rw [e1023]
    linarith
  have fs : fl (y * 10000) = fin s := by
    apply fl_eq_fin
    rw [hq2, e1023]
    linarith
  refine ⟨⌊s + 1 / 2⌋, ?_, ?_⟩
  · unfold Calculator.round
    simp only [mathPow10_four, EPSILON, add, pow2_neg52, fy, mul, fs, mathRound, div]
    norm_num
  · have f1 := Int.floor_le (s + 1 / 2)
    have f2 := Int.lt_floor_add_one (s + 1 / 2)
    have hyabs := abs_le.mp hyb
    rw [e51, abs_le]
    constructor <;> linarith

theorem roundBinary_pow2_1000 : roundBinary (pow2 1000) = pow2 1000 := by decide!

theorem nearest_is_zero {x h : ℚ} (h0 : 0 < x) (hx : 2 * x < h) (k : ℤ) (hk : k ≠ 0) :
    |x - 0 * h| < |x - (k : ℚ) * h| := by
  rw [zero_mul, sub_zero, abs_of_pos h0]
  rcases lt_or_gt_of_ne hk with hneg | hpos
  · have : (k : ℚ) ≤ -1 := by exact_mod_cast Int.le_sub_one_of_lt hneg
    have hh : 0 < h := by linarith
    have : (k : ℚ) * h ≤ -h := by nlinarith
    rw [abs_of_pos (by linarith)]
    linarith
  · have : (1 : ℚ) ≤ k := by exact_mod_cast hpos
    have hh : 0 < h := by linarith
    have : h ≤ (k : ℚ) * h := by nlinarith
    rw [abs_of_neg (by linarith)]
    linarith


/-! ## The claims -/

/-- C1, as stated, fails at the distance `d = 6004799503160661 / 2^57` (the
double nearest to `1/24`) with the mode `car`: the product `d * 0.12` is the
double `2882303761517117 / 2^59`, just below `0.005`, so rounding it half up
to two decimals gives `0` (and so does rounding the exact product of `d` and
`12/100`), while `calculateEmission` returns the double `0.01`.  It also fails
at `d = 2^1023`, where the scaling by `100` overflows and the result is
`Infinity`. -/
theorem calculateEmission_not_half_up :
    fl (6004799503160661 / 2 ^ 57) = fin (6004799503160661 / 2 ^ 57) ∧
      CONFIG.EMISSION_FACTORS.lookup "car" = some (fin (1080863910568919 / 9007199254740992)) ∧
      mul (fin (6004799503160661 / 2 ^ 57)) (fin (1080863910568919 / 9007199254740992))
        = fin (2882303761517117 / 2 ^ 59) ∧
      roundHalfUp (2882303761517117 / 2 ^ 59) 2 = 0 ∧
      roundHalfUp (6004799503160661 / 2 ^ 57 * (12 / 100)) 2 = 0 ∧
      calculateEmission (fin (6004799503160661 / 2 ^ 57)) "car" = some (ofRat (1 / 100)) ∧
      calculateEmission (fin (6004799503160661 / 2 ^ 57)) "car" ≠
        some (fl (roundHalfUp (2882303761517117 / 2 ^ 59) 2)) ∧
      calculateEmission (fin (6004799503160661 / 2 ^ 57)) "car" ≠
        some (fl (roundHalfUp (6004799503160661 / 2 ^ 57 * (12 / 100)) 2)) ∧
      fl (pow2 1023) = fin (pow2 1023) ∧
      calculateEmission (fin (pow2 1023)) "car" = some posInf := by decide!

/-- C1, amended. For a finite distance `d ≥ 0` and a configured mode `m` whose
product `p = d * factor[m]` (a double) is at most `2^1000`,
`calculateEmission(d, m)` is the double nearest to `k / 100` for an integer `k`
with `|k / 100 - p| ≤ 0.005 + 2^-51 * (p + 1)`: the product rounded to two
decimals, half up, up to the floating-point error of `round`; and
`calculateEmission(0, m) = 0`. -/
theorem calculateEmission_rounds (d f p : ℚ) (m : String) (hd : 0 ≤ d)
    (hm : CONFIG.EMISSION_FACTORS.lookup m = some (fin f))
    (hp : mul (fin d) (fin f) = fin p) (hb : p ≤ pow2 1000) :
    (∃ k : ℤ, calculateEmission (fin d) m = some (fl ((k : ℚ) / 100)) ∧
        |(k : ℚ) / 100 - p| ≤ 5 / 1000 + pow2 (-51) * (p + 1)) ∧
      calculateEmission (fin 0) m = some (fin 0) := by
  obtain ⟨f', hf', hf0, _⟩ := lookup_factor hm
  injection hf' with hf'
  subst hf'
  have hp0 : 0 ≤ p := by
    have := fin_of_fl_eq (show fl (d * f) = fin p from hp)
    rw [this]
    exact roundBinary_nonneg (mul_nonneg hd hf0)
  constructor
  · obtain ⟨k, hk1, hk2⟩ := round_two_spec hp0 hb
    exact ⟨k, by rw [calculateEmission_fin hd hm, hp, hk1], hk2⟩
  · rw [calculateEmission_fin le_rfl hm]
    have : mul (fin 0) (fin f) = fin 0 := by
      show fl (0 * f) = fin 0
      rw [zero_mul]; exact fl_zero
    rw [this, round_zero_two]

/-- C1, amended, at `d = 100` and the mode `bus`. -/
theorem calculateEmission_rounds_witness :
    (∃ k : ℤ, calculateEmission (fin 100) "bus" = some (fl ((k : ℚ) / 100)) ∧
        |(k : ℚ) / 100 - 5010254585449677 / 562949953421312| ≤
          5 / 1000 + pow2 (-51) * (5010254585449677 / 562949953421312 + 1)) ∧
      calculateEmission (fin 0) "bus" = some (fin 0) :=
  calculateEmission_rounds 100 (3206562934687793 / 36028797018963968)
    (5010254585449677 / 562949953421312) "bus" (by norm_num) (by decide!) (by decide!)
    (by decide!)

/-- C2. `calculateEmission(d, m)` is `null` exactly when `d` is not finite, or
`d < 0`, or `m` is not a key of the factor table holding a finite number; in
every other case the result is a number (and not `NaN`).  In particular it is
`null` at `(-1, "car")`, at `(NaN, "car")` and at `(d, "unknown-mode")`. -/
theorem calculateEmission_eq_none_iff (d : JSNumber) (m : String) :
    (calculateEmission d m = none ↔
      (isFinite d = false ∨ lt d (fin 0) = true ∨
        ¬ ∃ f, CONFIG.EMISSION_FACTORS.lookup m = some f ∧ isFinite f = true)) ∧
    (calculateEmission d m = none ∨ ∃ r, calculateEmission d m = some r ∧ r ≠ nan) ∧
    calculateEmission (fin (-1)) "car" = none ∧
    calculateEmission nan "car" = none ∧
    calculateEmission d "unknown-mode" = none := by
  have hu : CONFIG.EMISSION_FACTORS.lookup "unknown-mode" = none := by decide!
  refine ⟨?_, ?_, by decide!, by decide!, ?_⟩
  · unfold calculateEmission
    cases hl : CONFIG.EMISSION_FACTORS.lookup m with
    | none => simp
    | some x =>
      obtain ⟨f, rfl, _, _⟩ := lookup_factor hl
      cases d <;> simp [isFinite, lt]
  · unfold calculateEmission
    cases hl : CONFIG.EMISSION_FACTORS.lookup m with
    | none => simp
    | some x =>
      obtain ⟨f, rfl, _, _⟩ := lookup_factor hl
      cases d with
      | fin a =>
        by_cases ha : a < 0
        · simp [isFinite, lt, ha]
        · right
          simp only [isFinite, lt, ha]
          exact ⟨_, by simp; rfl, round_two_ne_nan (fl_ne_nan (a * f))⟩
      | _ => simp [isFinite, lt]
  · unfold calculateEmission
    simp [hu]

/-- C3. For a finite distance `d ≥ 0`, `calculateAllModes(d)` returns a list whose
modes are a permutation of the four configured modes, whose entries carry the
emission `calculateEmission(d, mode)`, and which is in non-decreasing order of
that emission; at `d = 100` the order is bicycle (0), bus (8.9), car (12),
truck (96); the result is `null` when `d` is not finite or negative. -/
theorem calculateAllModes_sorted (d : ℚ) (hd : 0 ≤ d) :
    (∃ l, calculateAllModes (fin d) = some l ∧
        (l.map (fun r => r.mode)).Perm ["bicycle", "car", "bus", "truck"] ∧
        (∀ r ∈ l, calculateEmission (fin d) r.mode = some r.emission) ∧
        l.Pairwise (fun a b => le a.emission b.emission = true)) ∧
      (calculateAllModes (fin 100)).map (List.map fun r => (r.mode, r.emission)) =
        some [("bicycle", fin 0), ("bus", ofRat (89 / 10)), ("car", fin 12), ("truck", fin 96)] ∧
      (∀ x, isFinite x = false ∨ lt x (fin 0) = true → calculateAllModes x = none) := by
  refine ⟨?_, by decide!, ?_⟩
  · refine ⟨_, calculateAllModes_unfold hd, ?_, ?_, ?_⟩
    · refine ((arraySort_perm _ _).map _).trans ?_
      rw [factors_eq]
      exact List.Perm.refl _
    · intro r hr
      have hr' := (arraySort_perm _ _).mem_iff.mp hr
      rw [factors_eq] at hr'
      simp only [List.map, List.mem_cons, List.mem_singleton, List.not_mem_nil, or_false] at hr'
      rcases hr' with rfl | rfl | rfl | rfl
      · exact calculateEmission_fin hd lookup_bicycle
      · exact calculateEmission_fin hd lookup_car
      · exact calculateEmission_fin hd lookup_bus
      · exact calculateEmission_fin hd lookup_truck
    · apply arraySort_sorted (fun r : ModeResult => r.emission)
      intro r hr
      rw [factors_eq] at hr
      simp only [List.map, List.mem_cons, List.mem_singleton, List.not_mem_nil, or_false] at hr
      rcases hr with rfl | rfl | rfl | rfl <;>
        exact ⟨round_two_ne_nan (fl_ne_nan _), fun q hq => round_two_onGrid hq⟩
  · intro x hx
    unfold calculateAllModes
    rcases hx with hx | hx <;> simp [hx]

/-- C3 at `d = 430`. -/
theorem calculateAllModes_sorted_witness :
    (∃ l, calculateAllModes (fin 430) = some l ∧
        (l.map (fun r => r.mode)).Perm ["bicycle", "car", "bus", "truck"] ∧
        (∀ r ∈ l, calculateEmission (fin 430) r.mode = some r.emission) ∧
        l.Pairwise (fun a b => le a.emission b.emission = true)) ∧
      (calculateAllModes (fin 100)).map (List.map fun r => (r.mode, r.emission)) =
        some [("bicycle", fin 0), ("bus", ofRat (89 / 10)), ("car", fin 12), ("truck", fin 96)] ∧
      (∀ x, isFinite x = false ∨ lt x (fin 0) = true → calculateAllModes x = none) :=
  calculateAllModes_sorted 430 (by norm_num)

/-- C4, as stated, fails for tiny positive distances.  At the smallest positive
double `d = 2^-1074` the product `d * 0.12` underflows to `0`, so every
percentage is `null` although `d > 0`; at `d = 20 * 2^-1074` (about `1e-322`)
the percentages are bicycle 0, car 100, bus 100, truck 950. -/
theorem calculateAllModes_percentage_underflow :
    (0 : ℚ) < pow2 (-1074) ∧ fl (pow2 (-1074)) = fin (pow2 (-1074)) ∧
      mul (fin (pow2 (-1074))) (ofRat (12 / 100)) = fin 0 ∧
      (calculateAllModes (fin (pow2 (-1074)))).map
          (List.map fun r => (r.mode, r.percentageVsCar)) =
        some [("bicycle", none), ("car", none), ("bus", none), ("truck", none)] ∧
      fl (20 * pow2 (-1074)) = fin (20 * pow2 (-1074)) ∧
      (calculateAllModes (fin (20 * pow2 (-1074)))).map
          (List.map fun r => (r.mode, r.percentageVsCar)) =
        some [("bicycle", some (fin 0)), ("car", some (fin 100)), ("bus", some (fin 100)),
          ("truck", some (fin 950))] := by decide!

/-- C4, amended. For a finite distance `0 ≤ d ≤ Number.MAX_VALUE`, every entry of
`calculateAllModes(d)` has `percentageVsCar = null` exactly when the double
`d * factor[car]` is `0`, and otherwise
`round((d * factor[mode]) / (d * factor[car]) * 100, 2)` from the unrounded
emissions; for every `d ≥ 2^-1000` the percentages are bicycle 0, car 100,
bus 74.17, truck 800 whatever `d` is, and at `d = 100` they come in the order
bicycle, bus, car, truck. -/
theorem calculateAllModes_percentage (d : ℚ) (hd : 0 ≤ d) (hmax : d ≤ MAX_VALUE) :
    ∃ l, calculateAllModes (fin d) = some l ∧
      (∀ r ∈ l, (r.percentageVsCar = none ↔ mul (fin d) (ofRat (12 / 100)) = fin 0)) ∧
      (∀ r ∈ l, ∀ f, CONFIG.EMISSION_FACTORS.lookup r.mode = some f →
        mul (fin d) (ofRat (12 / 100)) ≠ fin 0 →
        r.percentageVsCar = some (Calculator.round
          (mul (div (mul (fin d) f) (mul (fin d) (ofRat (12 / 100)))) (ofRat 100)) 2)) ∧
      (pow2 (-1000) ≤ d →
        (l.map fun r => (r.mode, r.percentageVsCar)).Perm
          [("bicycle", some (fin 0)), ("car", some (fin 100)),
            ("bus", some (ofRat (7417 / 100))), ("truck", some (fin 800))]) ∧
      (calculateAllModes (fin 100)).map (List.map fun r => (r.mode, r.percentageVsCar)) =
        some [("bicycle", some (fin 0)), ("bus", some (ofRat (7417 / 100))),
          ("car", some (fin 100)), ("truck", some (fin 800))] := by
  refine ⟨_, calculateAllModes_unfold hd, ?_, ?_, ?_, by decide!⟩
  · intro r hr
    have hr' := (arraySort_perm _ _).mem_iff.mp hr
    rw [factors_eq] at hr'
    simp only [List.map, List.mem_cons, List.mem_singleton, List.not_mem_nil, or_false] at hr'
    rcases hr' with rfl | rfl | rfl | rfl <;> simp
  · intro r hr f hf hc
    have hr' := (arraySort_perm _ _).mem_iff.mp hr
    rw [factors_eq] at hr'
    simp only [List.map, List.mem_cons, List.mem_singleton, List.not_mem_nil, or_false] at hr'
    rcases hr' with rfl | rfl | rfl | rfl
    · rw [lookup_bicycle] at hf; injection hf with hf; subst hf; simp [hc]
    · rw [lookup_car] at hf; injection hf with hf; subst hf; simp [hc]
    · rw [lookup_bus] at hf; injection hf with hf; subst hf; simp [hc]
    · rw [lookup_truck] at hf; injection hf with hf; subst hf; simp [hc]
  · intro hd1
    have hc := car_ne_zero hd1 hmax
    refine ((arraySort_perm _ _).map _).trans ?_
    rw [factors_eq]
    simp only [List.map, hc, ne_eq, not_false_eq_true, if_true]
    have e0 := percentage_bicycle hc
    have e1 := percentage_eval (d := d) (f := 1080863910568919 / 9007199254740992)
      (l := 999999 / 1000000) (u := 1000001 / 1000000) (k := 10000) hd1 hmax
      (by norm_num) (by norm_num) (by norm_num) (by norm_num) (by norm_num) (by norm_num)
      (by norm_num) (by norm_num)
    have e2 := percentage_eval (d := d) (f := 3206562934687793 / 36028797018963968)
      (l := 74166 / 100000) (u := 74167 / 100000) (k := 7417) hd1 hmax
      (by norm_num) (by norm_num) (by norm_num) (by norm_num) (by norm_num) (by norm_num)
      (by norm_num) (by norm_num)
    have e3 := percentage_eval (d := d) (f := 1080863910568919 / 1125899906842624)
      (l := 7999999 / 1000000) (u := 8000001 / 1000000) (k := 80000) hd1 hmax
      (by norm_num) (by norm_num) (by norm_num) (by norm_num) (by norm_num) (by norm_num)
      (by norm_num) (by norm_num)
    have v1 : fl (((10000 : ℤ) : ℚ) / 100) = fin 100 := by decide!
    have v2 : fl (((7417 : ℤ) : ℚ) / 100) = ofRat (7417 / 100) := by decide!
    have v3 : fl (((80000 : ℤ) : ℚ) / 100) = fin 800 := by decide!
    rw [ofRat_car] at e0 ⊢
    rw [e0, e1, e2, e3, v1, v2, v3]

/-- C4, amended, at `d = 100`. -/
theorem calculateAllModes_percentage_witness :
    ∃ l, calculateAllModes (fin 100) = some l ∧
      (∀ r ∈ l, (r.percentageVsCar = none ↔ mul (fin 100) (ofRat (12 / 100)) = fin 0)) ∧
      (∀ r ∈ l, ∀ f, CONFIG.EMISSION_FACTORS.lookup r.mode = some f →
        mul (fin 100) (ofRat (12 / 100)) ≠ fin 0 →
        r.percentageVsCar = some (Calculator.round
          (mul (div (mul (fin 100) f) (mul (fin 100) (ofRat (12 / 100)))) (ofRat 100)) 2)) ∧
      (l.map fun r => (r.mode, r.percentageVsCar)).Perm
          [("bicycle", some (fin 0)), ("car", some (fin 100)),
            ("bus", some (ofRat (7417 / 100))), ("truck", some (fin 800))] ∧
      (calculateAllModes (fin 100)).map (List.map fun r => (r.mode, r.percentageVsCar)) =
        some [("bicycle", some (fin 0)), ("bus", some (ofRat (7417 / 100))),
          ("car", some (fin 100)), ("truck", some (fin 800))] := by
  obtain ⟨l, h1, h2, h3, h4, h5⟩ :=
    calculateAllModes_percentage 100 (by norm_num) (by decide!)
  exact ⟨l, h1, h2, h3, h4 (by decide!), h5⟩

/-- C5, read as the nearest multiple of `0.01`, fails at `emission = 0` and
`baseline = 2882303761517117 / 2^59` (the double `0.004999999999999999`): the
difference is that same double, which lies below `0.005`, so `0` is nearer to
it than every other multiple of `0.01` and rounding it half up to two decimals
gives `0`, while the returned `savedKg` is the double `0.01` (the helper `round`
adds `Number.EPSILON` before it scales). -/
theorem calculateSavings_savedKg_not_nearest :
    fl (2882303761517117 / 2 ^ 59) = fin (2882303761517117 / 2 ^ 59) ∧
      sub (fin (2882303761517117 / 2 ^ 59)) (fin 0) = fin (2882303761517117 / 2 ^ 59) ∧
      (∀ k : ℤ, k ≠ 0 → |(2882303761517117 / 2 ^ 59 : ℚ) - 0 * (1 / 100)| <
        |(2882303761517117 / 2 ^ 59 : ℚ) - (k : ℚ) * (1 / 100)|) ∧
      roundHalfUp (2882303761517117 / 2 ^ 59) 2 = 0 ∧
      calculateSavings (fin 0) (fin (2882303761517117 / 2 ^ 59)) =
        some { savedKg := ofRat (1 / 100), percentage := some (fin 100) } ∧
      ofRat (1 / 100) ≠ fl (roundHalfUp (2882303761517117 / 2 ^ 59) 2) :=
  ⟨by decide!, by decide!, fun k hk => nearest_is_zero (by norm_num) (by norm_num) k hk,
    by decide!, by decide!, by decide!⟩

/-- C5, amended. `calculateSavings(emission, baseline)` is `null` exactly when
one of its arguments is not finite; for finite arguments with
`|baseline - emission| ≤ 2^1000` the difference computed in doubles is a finite
`s`, and the returned `savedKg` is `round(s, 2)`, which is the double nearest
to `k / 100` for an integer `k` with `|k / 100 - s| ≤ 0.005 + 2^-51 * (|s| + 1)`:
the difference rounded to two decimals, half up, up to the floating-point
error of `round`; and `calculateSavings(10, 0)` is
`{savedKg: -10, percentage: null}`. -/
theorem calculateSavings_savedKg_rounds (e b : ℚ) (x y : JSNumber) (hd : |b - e| ≤ pow2 1000) :
    (calculateSavings x y = none ↔ (isFinite x = false ∨ isFinite y = false)) ∧
      (∃ (r : Savings) (s : ℚ) (k : ℤ), calculateSavings (fin e) (fin b) = some r ∧
        sub (fin b) (fin e) = fin s ∧
        r.savedKg = Calculator.round (fin s) 2 ∧
        r.savedKg = fl ((k : ℚ) / 100) ∧
        |(k : ℚ) / 100 - s| ≤ 5 / 1000 + pow2 (-51) * (|s| + 1)) ∧
      calculateSavings (fin 10) (fin 0) = some { savedKg := fin (-10), percentage := none } := by
  have e1001 : pow2 1001 = pow2 1000 * 2 := by
    rw [show (1001 : ℤ) = 1000 + 1 by norm_num, pow2_add]
    congr 1
  have e1023 : pow2 1000 ≤ pow2 1023 := pow2_le_pow2 (by norm_num)
  have eτ : pow2 (-1075) ≤ 1 / 9007199254740992 := by
    rw [← pow2_neg53]; exact pow2_le_pow2 (by norm_num)
  have hX : 1 ≤ pow2 1000 := by
    have := pow2_le_pow2 (show (0 : ℤ) ≤ 1000 by norm_num)
    rwa [show pow2 0 = 1 from rfl] at this
  refine ⟨?_, ?_, by decide!⟩
  · unfold calculateSavings
    cases x <;> cases y <;> simp [isFinite]
  · have hsub : sub (fin b) (fin e) = fin (roundBinary (b - e)) := by
      show fl (b + -e) = _
      rw [← sub_eq_add_neg]
      exact fl_eq_fin (hd.trans e1023)
    have herr := abs_le.mp (roundBinary_err (b - e))
    have hd' := abs_le.mp hd
    have hab : |b - e| ≤ pow2 1000 := hd
    have hs : |roundBinary (b - e)| ≤ pow2 1001 := by
      rw [abs_le, e1001]
      constructor <;> linarith [abs_nonneg (b - e)]
    obtain ⟨k, hk1, hk2⟩ := round_two_spec_abs hs
    refine ⟨_, roundBinary (b - e), k, rfl, hsub, ?_, ?_, ?_⟩
    · show Calculator.round (sub (fin b) (fin e)) 2 = _
      rw [hsub]
    · show Calculator.round (sub (fin b) (fin e)) 2 = _
      rw [hsub, hk1]
    · have : (1 : ℚ) / (2 * 100) = 5 / 1000 := by norm_num
      rw [this] at hk2
      exact hk2

/-- C5, amended, at `emission = 96`, `baseline = 12`. -/
theorem calculateSavings_savedKg_rounds_witness :
    (calculateSavings (fin 96) (fin 12) = none ↔
        (isFinite (fin 96) = false ∨ isFinite (fin 12) = false)) ∧
      (∃ (r : Savings) (s : ℚ) (k : ℤ), calculateSavings (fin 96) (fin 12) = some r ∧
        sub (fin 12) (fin 96) = fin s ∧
        r.savedKg = Calculator.round (fin s) 2 ∧
        r.savedKg = fl ((k : ℚ) / 100) ∧
        |(k : ℚ) / 100 - s| ≤ 5 / 1000 + pow2 (-51) * (|s| + 1)) ∧
      calculateSavings (fin 10) (fin 0) = some { savedKg := fin (-10), percentage := none } :=
  calculateSavings_savedKg_rounds 96 12 (fin 96) (fin 12)
    (by rw [abs_le]; constructor <;> decide!)

/-- C6, as stated, fails at `emission = 0.004`, `baseline = 1`: the returned
`savedKg` is `1` (0.996 rounded), so `round(savedKg / baseline * 100, 2)` is
`100`, while the returned percentage is `99.6`. -/
theorem calculateSavings_percentage_not_from_savedKg :
    calculateSavings (ofRat (4 / 1000)) (fin 1) =
        some { savedKg := fin 1, percentage := some (ofRat (996 / 10)) } ∧
      isFinite (ofRat (4 / 1000)) = true ∧
      Calculator.round (mul (div (fin 1) (fin 1)) (ofRat 100)) 2 = fin 100 ∧
      ofRat (996 / 10) ≠ fin 100 := by decide!

/-- C6, amended. For finite `emission` and `baseline`, the percentage returned by
`calculateSavings` is `null` when `baseline` is `0`, and otherwise
`round((baseline - emission) / baseline * 100, 2)`, computed from the unrounded
difference `baseline - emission` and not from the returned `savedKg`. -/
theorem calculateSavings_percentage (e b : ℚ) :
    ∃ s, calculateSavings (fin e) (fin b) = some s ∧
      s.percentage =
        (if b = 0 then none
         else some (Calculator.round
          (mul (div (sub (fin b) (fin e)) (fin b)) (ofRat 100)) 2)) := by
  refine ⟨_, rfl, ?_⟩
  by_cases hb : b = 0
  · subst hb; simp
  · have : (fin b : JSNumber) ≠ fin 0 := fun h => hb (by injection h)
    simp [hb, this]

/-- C7, as stated, fails at `emission = 2^-60`, `baseline = 0` (and likewise at
`emission = 0.001`): the emission is above the baseline and the returned
`savedKg` is `0`, which is not negative. -/
theorem calculateSavings_small_excess_rounds_to_zero :
    calculateSavings (fin (pow2 (-60))) (fin 0) = some { savedKg := fin 0, percentage := none } ∧
      fl (pow2 (-60)) = fin (pow2 (-60)) ∧
      lt (fin 0) (fin (pow2 (-60))) = true ∧
      (calculateSavings (fin (pow2 (-60))) (fin 0)).map (fun s => lt s.savedKg (fin 0)) =
        some false ∧
      calculateSavings (ofRat (1 / 1000)) (fin 0) = some { savedKg := fin 0, percentage := none } ∧
      lt (fin 0) (ofRat (1 / 1000)) = true := by decide!

/-- C7, amended. `calculateSavings` does not clamp: for finite `emission` and
`baseline` with `emission > baseline` the returned `savedKg` is never positive
(`savedKg ≤ 0`), and it is negative, at most `-0.01`, whenever the emission
exceeds the baseline by at least `0.01`. -/
theorem calculateSavings_not_clamped (e b : ℚ) (h : b < e) :
    ∃ s, calculateSavings (fin e) (fin b) = some s ∧
      le s.savedKg (fin 0) = true ∧
      (b + 1 / 100 ≤ e → le s.savedKg (ofRat (-1 / 100)) = true ∧ lt s.savedKg (fin 0) = true) := by
  refine ⟨_, rfl, ?_, ?_⟩
  · show le (Calculator.round (fl (b + -e)) 2) (fin 0) = true
    have h1 : le (fl (b + -e)) (fl 0) = true := fl_mono (by linarith)
    have h2 := round_two_mono h1
    rwa [fl_zero, round_zero_two] at h2
  · intro h'
    have h1 : le (fl (b + -e)) (fl (-1 / 100)) = true := fl_mono (by linarith)
    have h2 := round_two_mono h1
    have h3 : Calculator.round (fl (-1 / 100)) 2 = ofRat (-1 / 100) := by decide!
    rw [h3] at h2
    have h4 : ofRat (-1 / 100) = fin (-5764607523034235 / 576460752303423488) := by decide!
    refine ⟨h2, ?_⟩
    rw [h4] at h2
    exact lt_of_le_neg (by norm_num) h2

/-- C7, amended, at `emission = 96`, `baseline = 12` (truck against car over
100 km). -/
theorem calculateSavings_not_clamped_witness :
    ∃ s, calculateSavings (fin 96) (fin 12) = some s ∧
      le s.savedKg (fin 0) = true ∧
      le s.savedKg (ofRat (-1 / 100)) = true ∧ lt s.savedKg (fin 0) = true := by
  obtain ⟨s, h1, h2, h3⟩ := calculateSavings_not_clamped 96 12 (by norm_num)
  exact ⟨s, h1, h2, h3 (by norm_num)⟩

/-- C8, read as the nearest multiple of `0.0001`, fails at
`e = 3602879701889191 / 2^56` (the double `0.0499999999999`): the quotient
`e / 1000` is the double `7378697629469063 / 2^67`, about `4.99999999999e-5`,
below `0.00005`, so `0` is nearer to it (and to the exact quotient) than every
other multiple of `0.0001` and rounding half up to four decimals gives `0`,
while `calculateCarbonCredits(e)` returns the double `0.0001` (the helper
`round` adds `Number.EPSILON` before it scales). -/
theorem calculateCarbonCredits_not_nearest :
    fl (3602879701889191 / 2 ^ 56) = fin (3602879701889191 / 2 ^ 56) ∧
      div (fin (3602879701889191 / 2 ^ 56)) CONFIG.KG_PER_CREDIT =
        fin (7378697629469063 / 2 ^ 67) ∧
      (∀ k : ℤ, k ≠ 0 → |(7378697629469063 / 2 ^ 67 : ℚ) - 0 * (1 / 10000)| <
        |(7378697629469063 / 2 ^ 67 : ℚ) - (k : ℚ) * (1 / 10000)|) ∧
      (∀ k : ℤ, k ≠ 0 → |(3602879701889191 / 2 ^ 56 / 1000 : ℚ) - 0 * (1 / 10000)| <
        |(3602879701889191 / 2 ^ 56 / 1000 : ℚ) - (k : ℚ) * (1 / 10000)|) ∧
      roundHalfUp (7378697629469063 / 2 ^ 67) 4 = 0 ∧
      roundHalfUp (3602879701889191 / 2 ^ 56 / 1000) 4 = 0 ∧
      calculateCarbonCredits (fin (3602879701889191 / 2 ^ 56)) = some (ofRat (1 / 10000)) ∧
      ofRat (1 / 10000) ≠ fl (roundHalfUp (7378697629469063 / 2 ^ 67) 4) :=
  ⟨by decide!, by decide!, fun k hk => nearest_is_zero (by norm_num) (by norm_num) k hk,
    fun k hk => nearest_is_zero (by norm_num) (by norm_num) k hk,
    by decide!, by decide!, by decide!, by decide!⟩

/-- C8, amended. For a finite `e` with `0 ≤ e ≤ 2^1000` the quotient
`e / KG_PER_CREDIT` (`KG_PER_CREDIT = 1000`) computed in doubles is a finite
`q ≥ 0`, and `calculateCarbonCredits(e)` is `round(q, 4)`, which is the double
nearest to `k / 10000` for an integer `k` with
`|k / 10000 - q| ≤ 0.00005 + 2^-51 * (q + 1)`: the quotient rounded to four
decimals, half up, up to the floating-point error of `round`; the function
returns `null` exactly when its argument is not finite or negative;
`calculateCarbonCredits(1000) = 1` and `calculateCarbonCredits(-5)` is `null`. -/
theorem calculateCarbonCredits_rounds (e : ℚ) (he : 0 ≤ e) (hb : e ≤ pow2 1000) :
    (∃ (q : ℚ) (k : ℤ), div (fin e) CONFIG.KG_PER_CREDIT = fin q ∧ 0 ≤ q ∧
        calculateCarbonCredits (fin e) = some (Calculator.round (fin q) 4) ∧
        calculateCarbonCredits (fin e) = some (fl ((k : ℚ) / 10000)) ∧
        |(k : ℚ) / 10000 - q| ≤ 5 / 100000 + pow2 (-51) * (q + 1)) ∧
      (∀ x, calculateCarbonCredits x = none ↔ (isFinite x = false ∨ lt x (fin 0) = true)) ∧
      CONFIG.KG_PER_CREDIT = fin 1000 ∧
      calculateCarbonCredits (fin 1000) = some (fin 1) ∧
      calculateCarbonCredits (fin (-5)) = none := by
  have e1023 : pow2 1000 ≤ pow2 1023 := pow2_le_pow2 (by norm_num)
  have e1001 : pow2 1000 ≤ pow2 1001 := pow2_le_pow2 (by norm_num)
  refine ⟨?_, ?_, ofRat_1000, by decide!, by decide!⟩
  · have h1 : 0 ≤ e / 1000 := by positivity
    have h2 : e / 1000 ≤ pow2 1000 := by
      have := pow2_pos 1000
      rw [div_le_iff₀ (by norm_num)]
      linarith
    have hq : div (fin e) CONFIG.KG_PER_CREDIT = fin (roundBinary (e / 1000)) := by
      rw [ofRat_1000]
      have : div (fin e) (fin 1000) = fl (e / 1000) := by
        simp only [div]
        rw [if_neg (by norm_num)]
      rw [this]
      apply fl_eq_fin
      rw [abs_of_nonneg h1]
      exact h2.trans e1023
    have hq0 : 0 ≤ roundBinary (e / 1000) := roundBinary_nonneg h1
    have hq1 : roundBinary (e / 1000) ≤ pow2 1000 := by
      have := roundBinary_mono h2
      rwa [roundBinary_pow2_1000] at this
    obtain ⟨k, hk1, hk2⟩ := round_four_spec_abs
      (p := roundBinary (e / 1000)) (by rw [abs_of_nonneg hq0]; exact hq1.trans e1001)
    have hc : calculateCarbonCredits (fin e) =
        some (Calculator.round (fin (roundBinary (e / 1000))) 4) := by
      have h0 : calculateCarbonCredits (fin e) =
          some (Calculator.round (div (fin e) (fin 1000)) 4) := by
        unfold calculateCarbonCredits
        simp [ofRat_1000, isFinite, lt, le, not_lt.mpr he]
      rw [h0, ← ofRat_1000, hq]
    refine ⟨_, k, hq, hq0, hc, by rw [hc, hk1], ?_⟩
    rw [abs_of_nonneg hq0] at hk2
    have : (1 : ℚ) / (2 * 10000) = 5 / 100000 := by norm_num
    rw [this] at hk2
    exact hk2
  · intro x
    unfold calculateCarbonCredits
    cases x <;> simp [ofRat_1000, isFinite, lt, le]

/-- C8, amended, at `e = 51.6` (the double `7262054399134925 / 2^47`). -/
theorem calculateCarbonCredits_rounds_witness :
    (∃ (q : ℚ) (k : ℤ), div (fin (7262054399134925 / 2 ^ 47)) CONFIG.KG_PER_CREDIT = fin q ∧
        0 ≤ q ∧
        calculateCarbonCredits (fin (7262054399134925 / 2 ^ 47)) =
          some (Calculator.round (fin q) 4) ∧
        calculateCarbonCredits (fin (7262054399134925 / 2 ^ 47)) =
          some (fl ((k : ℚ) / 10000)) ∧
        |(k : ℚ) / 10000 - q| ≤ 5 / 100000 + pow2 (-51) * (q + 1)) ∧
      (∀ x, calculateCarbonCredits x = none ↔ (isFinite x = false ∨ lt x (fin 0) = true)) ∧
      CONFIG.KG_PER_CREDIT = fin 1000 ∧
      calculateCarbonCredits (fin 1000) = some (fin 1) ∧
      calculateCarbonCredits (fin (-5)) = none :=
  calculateCarbonCredits_rounds (7262054399134925 / 2 ^ 47) (by norm_num) (by decide!)

/-- C9. For a finite `c ≥ 0`, `estimateCreditPrice(c)` returns
`min = round(c * 50, 2)`, `max = round(c * 150, 2)` and
`average = round((min + max) / 2, 2)` computed from the rounded `min` and
`max`; the function returns `null` when `c` is not finite or negative; and
`estimateCreditPrice(2)` is `{min: 100, max: 300, average: 200}`. -/
theorem estimateCreditPrice_spec (c : ℚ) (hc : 0 ≤ c) :
    (∃ p, estimateCreditPrice (fin c) = some p ∧
        p.min = Calculator.round (mul (fin c) (fin 50)) 2 ∧
        p.max = Calculator.round (mul (fin c) (fin 150)) 2 ∧
        p.average = Calculator.round (div (add p.min p.max) (fin 2)) 2) ∧
      (∀ x, (isFinite x = false ∨ lt x (fin 0) = true) → estimateCreditPrice x = none) ∧
      CONFIG.PRICE_MIN_BRL = fin 50 ∧ CONFIG.PRICE_MAX_BRL = fin 150 ∧
      estimateCreditPrice (fin 2) = some { min := fin 100, max := fin 300, average := fin 200 } := by
  have h2 : ofRat 2 = fin 2 := by decide!
  refine ⟨⟨{ min := Calculator.round (mul (fin c) (fin 50)) 2
             max := Calculator.round (mul (fin c) (fin 150)) 2
             average := Calculator.round (div (add (Calculator.round (mul (fin c) (fin 50)) 2)
               (Calculator.round (mul (fin c) (fin 150)) 2)) (fin 2)) 2 }, ?_, rfl, rfl, rfl⟩,
    ?_, ofRat_50, ofRat_150, by decide!⟩
  · unfold estimateCreditPrice
    simp [ofRat_50, ofRat_150, h2, isFinite, lt, not_lt.mpr hc]
  · intro x hx
    unfold estimateCreditPrice
    rcases hx with hx | hx <;> simp [hx]

/-- C9 at `c = 2`. -/
theorem estimateCreditPrice_spec_witness :
    (∃ p, estimateCreditPrice (fin 2) = some p ∧
        p.min = Calculator.round (mul (fin 2) (fin 50)) 2 ∧
        p.max = Calculator.round (mul (fin 2) (fin 150)) 2 ∧
        p.average = Calculator.round (div (add p.min p.max) (fin 2)) 2) ∧
      (∀ x, (isFinite x = false ∨ lt x (fin 0) = true) → estimateCreditPrice x = none) ∧
      CONFIG.PRICE_MIN_BRL = fin 50 ∧ CONFIG.PRICE_MAX_BRL = fin 150 ∧
      estimateCreditPrice (fin 2) = some { min := fin 100, max := fin 300, average := fin 200 } :=
  estimateCreditPrice_spec 2 (by norm_num)

/-- C10, as stated, fails at `c = 0.0001`: `min = 0.01`, `max = 0.02`, so the
returned average is `round(0.015, 2) = 0.02`, while `c * (50 + 150) / 2 = 0.01`
rounded directly is `0.01`; the two differ by `0.01 > 0.005`. -/
theorem estimateCreditPrice_average_off_by_cent :
    estimateCreditPrice (ofRat (1 / 10000)) =
        some { min := ofRat (1 / 100), max := ofRat (2 / 100), average := ofRat (2 / 100) } ∧
      Calculator.round (div (mul (ofRat (1 / 10000))
          (add CONFIG.PRICE_MIN_BRL CONFIG.PRICE_MAX_BRL)) (ofRat 2)) 2 = ofRat (1 / 100) ∧
      ofRat (2 / 100) = fin (5764607523034235 / 288230376151711744) ∧
      ofRat (1 / 100) = fin (5764607523034235 / 576460752303423488) ∧
      (5 : ℚ) / 1000 <
        |5764607523034235 / 288230376151711744 - 5764607523034235 / 576460752303423488| ∧
      lt (fin 0) (ofRat (1 / 10000)) = true := by decide!

/-- C10, amended. For finite credits `0 ≤ c ≤ 2^20`, the average returned by
`estimateCreditPrice(c)` and `c * (priceMin + priceMax) / 2` rounded directly to
two decimals are the doubles nearest to `ka / 100` and `kd / 100` for integers
with `|ka - kd| ≤ 1`: they differ by at most one cent, `0.01` (up to `2^-23`
of representation error of the two doubles), not by at most `0.005`. -/
theorem estimateCreditPrice_average_near_direct (c : ℚ) (h0 : 0 ≤ c) (h1 : c ≤ 1048576) :
    ∃ (p : PriceEstimate) (ka kd : ℤ) (a b : ℚ),
      estimateCreditPrice (fin c) = some p ∧
      p.average = fl ((ka : ℚ) / 100) ∧
      Calculator.round (div (mul (fin c)
        (add CONFIG.PRICE_MIN_BRL CONFIG.PRICE_MAX_BRL)) (ofRat 2)) 2 = fl ((kd : ℚ) / 100) ∧
      |ka - kd| ≤ 1 ∧
      fl ((ka : ℚ) / 100) = fin a ∧ fl ((kd : ℚ) / 100) = fin b ∧
      |a - b| ≤ 1 / 100 + 1 / 8388608 := by
  have h2 : ofRat 2 = fin 2 := by decide!
  -- min
  obtain ⟨x1, x1n, x1e⟩ := fl_small (q := c * 50) (by positivity) (by linarith only [h1])
  set p1 := roundBinary (c * 50)
  have x1e' := abs_le.mp x1e
  obtain ⟨k1, m1, r1, r1f, m1n, m1e, k1e⟩ := round_two_small (p := p1) x1n
    (by linarith only [x1e'.2, h1])
  have m1e' := abs_le.mp m1e
  have k1e' := abs_le.mp k1e
  -- max
  obtain ⟨x2, x2n, x2e⟩ := fl_small (q := c * 150) (by positivity) (by linarith only [h1])
  set p2 := roundBinary (c * 150)
  have x2e' := abs_le.mp x2e
  obtain ⟨k2, m2, r2, r2f, m2n, m2e, k2e⟩ := round_two_small (p := p2) x2n
    (by linarith only [x2e'.2, h1])
  have m2e' := abs_le.mp m2e
  have k2e' := abs_le.mp k2e
  -- (min + max) / 2
  obtain ⟨s1, sn, se⟩ := fl_small (q := m1 + m2) (by linarith only [m1n, m2n])
    (by linarith only [m1e'.2, m2e'.2, k1e'.2, k2e'.2, x1e'.2, x2e'.2, h1, h0])
  set s := roundBinary (m1 + m2)
  have se' := abs_le.mp se
  obtain ⟨g1, gn, ge⟩ := fl_small (q := s / 2) (by linarith only [sn])
    (by linarith only [se'.2, m1e'.2, m2e'.2, k1e'.2, k2e'.2, x1e'.2, x2e'.2, h1, h0])
  set g := roundBinary (s / 2)
  have ge' := abs_le.mp ge
  obtain ⟨ka, a, ra, raf, an, ae, kae⟩ := round_two_small (p := g) gn
    (by linarith only [ge'.2, se'.2, m1e'.2, m2e'.2, k1e'.2, k2e'.2, x1e'.2, x2e'.2, h1, h0])
  have ae' := abs_le.mp ae
  have kae' := abs_le.mp kae
  -- the direct computation
  obtain ⟨y1, yn, ye⟩ := fl_small (q := c * 200) (by positivity) (by linarith only [h1])
  set pd := roundBinary (c * 200)
  have ye' := abs_le.mp ye
  obtain ⟨z1, zn, ze⟩ := fl_small (q := pd / 2) (by linarith only [yn])
    (by linarith only [ye'.2, h1])
  set qd := roundBinary (pd / 2)
  have ze' := abs_le.mp ze
  obtain ⟨kd, b, rb, rbf, bn, be, kde⟩ := round_two_small (p := qd) zn
    (by linarith only [ze'.2, ye'.2, h1])
  have be' := abs_le.mp be
  have kde' := abs_le.mp kde
  have hk : |ka - kd| ≤ 1 := by
    have u1 : ((ka - kd : ℤ) : ℚ) < 2 := by
      push_cast
      linarith only [kae'.2, kde'.1, ge'.1, ge'.2, se'.1, se'.2, m1e'.1, m1e'.2, m2e'.1, m2e'.2,
        k1e'.1, k1e'.2, k2e'.1, k2e'.2, x1e'.1, x1e'.2, x2e'.1, x2e'.2, ze'.1, ze'.2, ye'.1,
        ye'.2, h1, h0]
    have u2 : (-2 : ℚ) < ((ka - kd : ℤ) : ℚ) := by
      push_cast
      linarith only [kae'.1, kde'.2, ge'.1, ge'.2, se'.1, se'.2, m1e'.1, m1e'.2, m2e'.1, m2e'.2,
        k1e'.1, k1e'.2, k2e'.1, k2e'.2, x1e'.1, x1e'.2, x2e'.1, x2e'.2, ze'.1, ze'.2, ye'.1,
        ye'.2, h1, h0]
    have v1 : ka - kd < 2 := by exact_mod_cast u1
    have v2 : -2 < ka - kd := by exact_mod_cast u2
    rw [abs_le]; constructor <;> omega
  refine ⟨{ min := Calculator.round (fin p1) 2, max := Calculator.round (fin p2) 2,
            average := Calculator.round (fin g) 2 }, ka, kd, a, b, ?_, ra, ?_, hk, raf, rbf, ?_⟩
  · unfold estimateCreditPrice
    simp only [ofRat_50, ofRat_150, h2, isFinite, lt, not_lt.mpr h0, mul, x1, x2]
    have e1 : add (Calculator.round (fin p1) 2) (Calculator.round (fin p2) 2) = fin s := by
      rw [r1, r2, r1f, r2f]
      exact s1
    have e2 : div (fin s) (fin 2) = fin g := by
      simp only [div]
      rw [if_neg (by norm_num)]
      exact g1
    simp [e1, e2]
  · rw [add_prices, h2]
    have e1 : mul (fin c) (fin 200) = fin pd := y1
    have e2 : div (fin pd) (fin 2) = fin qd := by
      simp only [div]
      rw [if_neg (by norm_num)]
      exact z1
    rw [e1, e2, rb]
  · have hk' := abs_le.mp hk
    have w1 : ((ka : ℚ) - kd) ≤ 1 := by exact_mod_cast hk'.2
    have w2 : (-1 : ℚ) ≤ (ka : ℚ) - kd := by exact_mod_cast hk'.1
    rw [abs_le]; constructor
    · linarith only [w1, w2, ae'.1, ae'.2, be'.1, be'.2]
    · linarith only [w1, w2, ae'.1, ae'.2, be'.1, be'.2]

/-- C10, amended, at `c = 2`. -/
theorem estimateCreditPrice_average_near_direct_witness :
    ∃ (p : PriceEstimate) (ka kd : ℤ) (a b : ℚ),
      estimateCreditPrice (fin 2) = some p ∧
      p.average = fl ((ka : ℚ) / 100) ∧
      Calculator.round (div (mul (fin 2)
        (add CONFIG.PRICE_MIN_BRL CONFIG.PRICE_MAX_BRL)) (ofRat 2)) 2 = fl ((kd : ℚ) / 100) ∧
      |ka - kd| ≤ 1 ∧
      fl ((ka : ℚ) / 100) = fin a ∧ fl ((kd : ℚ) / 100) = fin b ∧
      |a - b| ≤ 1 / 100 + 1 / 8388608 :=
  estimateCreditPrice_average_near_direct 2 (by norm_num) (by norm_num)

/-! ## The route table: lemmas on `findDistance`, `normalizeCity` and `getAllCities` -/

open RoutesDB

theorem findDistanceLoop_eq_find (toLowerCase : String → String) (o d : String)
    (t : List Route) :
    findDistanceLoop toLowerCase o d t =
      (t.find? (matchesPair toLowerCase o d)).map (fun r => r.distanceKm) := by
  induction t with
  | nil => rfl
  | cons r rest ih =>
    unfold findDistanceLoop
    by_cases h1 : normalizeCity toLowerCase (.str r.origin) = o ∧
        normalizeCity toLowerCase (.str r.destination) = d
    · have hm : matchesPair toLowerCase o d r = true := by
        unfold matchesPair; exact decide_eq_true (Or.inl h1)
      rw [if_pos h1]
      simp only [List.find?, hm, Option.map]
    · by_cases h2 : normalizeCity toLowerCase (.str r.origin) = d ∧
          normalizeCity toLowerCase (.str r.destination) = o
      · have hm : matchesPair toLowerCase o d r = true := by
          unfold matchesPair; exact decide_eq_true (Or.inr h2)
        rw [if_neg h1, if_pos h2]
        simp only [List.find?, hm, Option.map]
      · have hm : matchesPair toLowerCase o d r = false := by
          unfold matchesPair
          exact decide_eq_false (fun h => h.elim h1 h2)
        rw [if_neg h1, if_neg h2]
        simp only [List.find?, hm]
        exact ih

theorem matchesPair_comm (toLowerCase : String → String) (o d : String) (r : Route) :
    matchesPair toLowerCase o d r = matchesPair toLowerCase d o r := by
  unfold matchesPair
  simp only [decide_eq_decide]
  exact or_comm

theorem findDistanceIn_eq (toLowerCase : String → String) (t : List Route)
    (origin destination : JSValue) :
    findDistanceIn toLowerCase t origin destination =
      if normalizeCity toLowerCase origin = "" ∨ normalizeCity toLowerCase destination = ""
      then none
      else (t.find? (matchesPair toLowerCase (normalizeCity toLowerCase origin)
        (normalizeCity toLowerCase destination))).map (fun r => r.distanceKm) := by
  unfold findDistanceIn
  simp only [findDistanceLoop_eq_find]

theorem findDistanceIn_comm (toLowerCase : String → String) (t : List Route)
    (a b : JSValue) :
    findDistanceIn toLowerCase t a b = findDistanceIn toLowerCase t b a := by
  rw [findDistanceIn_eq, findDistanceIn_eq]
  have : matchesPair toLowerCase (normalizeCity toLowerCase a) (normalizeCity toLowerCase b) =
      matchesPair toLowerCase (normalizeCity toLowerCase b) (normalizeCity toLowerCase a) :=
    funext (matchesPair_comm toLowerCase _ _)
  rw [this]
  by_cases h : normalizeCity toLowerCase a = "" ∨ normalizeCity toLowerCase b = ""
  · rw [if_pos h, if_pos h.symm]
  · rw [if_neg h, if_neg (fun h' => h h'.symm)]

theorem lowercasesRouters_ascii : LowercasesRouters toLowerCaseAscii := fun _ _ => ⟨rfl, rfl⟩

theorem toLower_toNat_of_upper (c : Char) (h : c.toNat ≥ 65 ∧ c.toNat ≤ 90) :
    (Char.toLower c).toNat = c.toNat + 32 := by
  unfold Char.toLower
  simp only [h, and_self, if_true]
  obtain ⟨h1, h2⟩ := h
  generalize c.toNat = n at h1 h2
  interval_cases n <;> rfl

theorem isWhiteSpace_toLower (c : Char) : isWhiteSpace (Char.toLower c) = isWhiteSpace c := by
  by_cases h : c.toNat ≥ 65 ∧ c.toNat ≤ 90
  · have e := toLower_toNat_of_upper c h
    have e' : (Char.toLower c).val.toNat = c.val.toNat + 32 := e
    obtain ⟨h1, h2⟩ := h
    have h1' : 65 ≤ c.val.toNat := h1
    have h2' : c.val.toNat ≤ 90 := h2
    unfold isWhiteSpace
    rw [e']
    generalize c.val.toNat = n at h1' h2'
    interval_cases n <;> rfl
  · unfold Char.toLower
    simp only [h, if_false]

theorem toLower_toLower (c : Char) : Char.toLower (Char.toLower c) = Char.toLower c := by
  by_cases h : c.toNat ≥ 65 ∧ c.toNat ≤ 90
  · have e := toLower_toNat_of_upper c h
    have : ¬ ((Char.toLower c).toNat ≥ 65 ∧ (Char.toLower c).toNat ≤ 90) := by
      rw [e]; omega
    generalize Char.toLower c = x at this
    unfold Char.toLower
    simp only [this, if_false]
  · have : Char.toLower c = c := by
      unfold Char.toLower
      simp only [h, if_false]
    rw [this, this]

theorem dropWhile_map_toLower (l : List Char) :
    (l.map Char.toLower).dropWhile isWhiteSpace = (l.dropWhile isWhiteSpace).map Char.toLower := by
  rw [List.dropWhile_map]
  have : (isWhiteSpace ∘ Char.toLower) = isWhiteSpace := funext isWhiteSpace_toLower
  rw [this]

theorem rdropWhile_map_toLower (l : List Char) :
    (l.map Char.toLower).rdropWhile isWhiteSpace =
      (l.rdropWhile isWhiteSpace).map Char.toLower := by
  unfold List.rdropWhile
  rw [← List.map_reverse, dropWhile_map_toLower, List.map_reverse]

theorem head_of_prefix {A X : List Char} (hp : A <+: X) (hl : 0 < A.length)
    (hx : 0 < X.length) : A.get ⟨0, hl⟩ = X.get ⟨0, hx⟩ := by
  obtain ⟨t, rfl⟩ := hp
  cases A with
  | nil => simp at hl
  | cons a A' => rfl

theorem dropWhile_rdropWhile_dropWhile (l : List Char) :
    ((l.dropWhile isWhiteSpace).rdropWhile isWhiteSpace).dropWhile isWhiteSpace =
      (l.dropWhile isWhiteSpace).rdropWhile isWhiteSpace := by
  rw [List.dropWhile_eq_self_iff]
  intro hl
  have hp : (l.dropWhile isWhiteSpace).rdropWhile isWhiteSpace <+: l.dropWhile isWhiteSpace :=
    List.rdropWhile_prefix _ _
  have hx : 0 < (l.dropWhile isWhiteSpace).length := lt_of_lt_of_le hl hp.length_le
  have hhead := (List.dropWhile_eq_self_iff (p := isWhiteSpace)
    (l := l.dropWhile isWhiteSpace)).mp (List.dropWhile_idempotent _ _) hx
  have := head_of_prefix hp hl hx
  rw [this]
  exact hhead

theorem trim_trim (s : String) : trim (trim s) = trim s := by
  unfold trim
  simp only
  rw [dropWhile_rdropWhile_dropWhile, List.rdropWhile_idempotent]

theorem trim_toLowerCaseAscii (s : String) :
    trim (toLowerCaseAscii s) = toLowerCaseAscii (trim s) := by
  unfold trim toLowerCaseAscii
  simp only
  rw [dropWhile_map_toLower, rdropWhile_map_toLower]

theorem toLowerCaseAscii_idem (s : String) :
    toLowerCaseAscii (toLowerCaseAscii s) = toLowerCaseAscii s := by
  unfold toLowerCaseAscii
  simp only [List.map_map]
  congr 1
  apply List.map_congr_left
  intro c _
  exact toLower_toLower c

/-- The lowercasing of `A`-`Z` after `trim` is idempotent. -/
theorem normalize_ascii_idem (s : String) :
    toLowerCaseAscii (trim (toLowerCaseAscii (trim s))) = toLowerCaseAscii (trim s) := by
  rw [trim_toLowerCaseAscii, trim_trim, toLowerCaseAscii_idem]
theorem mem_setInsert (keys : List String) (k x : String) :
    x ∈ setInsert keys k ↔ x ∈ keys ∨ x = k := by
  unfold setInsert
  split_ifs with h
  · constructor
    · exact Or.inl
    · rintro (h' | rfl)
      · exact h'
      · exact h
  · simp

theorem nodup_setInsert (keys : List String) (k : String) (h : keys.Nodup) :
    (setInsert keys k).Nodup := by
  unfold setInsert
  split_ifs with hk
  · exact h
  · rw [List.nodup_append]
    refine ⟨h, List.nodup_singleton k, ?_⟩
    intro x hx hx'
    rw [List.mem_singleton] at hx'
    subst hx'
    exact hk hx

theorem foldl_cityKeys (t : List Route) (acc : List String) (h : acc.Nodup) :
    (t.foldl (fun set r => setInsert (setInsert set r.origin) r.destination) acc).Nodup ∧
      ∀ x, x ∈ t.foldl (fun set r => setInsert (setInsert set r.origin) r.destination) acc ↔
        (x ∈ acc ∨ ∃ r ∈ t, x = r.origin ∨ x = r.destination) := by
  induction t generalizing acc with
  | nil => simp [h]
  | cons r rest ih =>
    have h' := nodup_setInsert _ r.destination (nodup_setInsert acc r.origin h)
    obtain ⟨n, m⟩ := ih _ h'
    refine ⟨n, fun x => ?_⟩
    rw [List.foldl_cons, m x, mem_setInsert, mem_setInsert]
    constructor
    · rintro (((hx | hx) | hx) | ⟨q, hq, hx⟩)
      · exact Or.inl hx
      · exact Or.inr ⟨r, List.mem_cons_self _ _, Or.inl hx⟩
      · exact Or.inr ⟨r, List.mem_cons_self _ _, Or.inr hx⟩
      · exact Or.inr ⟨q, List.mem_cons_of_mem _ hq, hx⟩
    · rintro (hx | ⟨q, hq, hx⟩)
      · exact Or.inl (Or.inl (Or.inl hx))
      · rcases List.mem_cons.mp hq with rfl | hq
        · rcases hx with hx | hx
          · exact Or.inl (Or.inl (Or.inr hx))
          · exact Or.inl (Or.inr hx)
        · exact Or.inr ⟨q, hq, hx⟩

theorem routers_consistent_ascii :
    ∀ r1 ∈ routers, ∀ r2 ∈ routers,
      matchesPair toLowerCaseAscii (toLowerCaseAscii (trim r1.origin))
        (toLowerCaseAscii (trim r1.destination)) r2 = true →
      r1.distanceKm = r2.distanceKm := by decide!

theorem routers_repeated_ascii :
    routers.Pairwise (fun r1 r2 =>
      matchesPair toLowerCaseAscii (toLowerCaseAscii (trim r1.origin))
        (toLowerCaseAscii (trim r1.destination)) r2 = true →
      r1 = ⟨"Rio de Janeiro, RJ", "Niterói, RJ", fin 13⟩ ∧
        r2 = ⟨"Rio de Janeiro, RJ", "Niterói, RJ", fin 13⟩) := by decide!

theorem routers_positive : ∀ r ∈ routers, lt (fin 0) r.distanceKm = true := by decide!

theorem normalizeCity_origin {toLowerCase : String → String} (ht : LowercasesRouters toLowerCase)
    {r : Route} (hr : r ∈ routers) :
    normalizeCity toLowerCase (.str r.origin) = toLowerCaseAscii (trim r.origin) ∧
      normalizeCity toLowerCase (.str r.destination) = toLowerCaseAscii (trim r.destination) :=
  ht r hr

theorem matchesPair_of_lowercases {toLowerCase : String → String}
    (ht : LowercasesRouters toLowerCase) {r : Route} (hr : r ∈ routers) (o d : String) :
    matchesPair toLowerCase o d r = matchesPair toLowerCaseAscii o d r := by
  obtain ⟨h1, h2⟩ := normalizeCity_origin ht hr
  unfold matchesPair
  rw [h1, h2]
  rfl

theorem routers_consistent {toLowerCase : String → String}
    (ht : LowercasesRouters toLowerCase) :
    ∀ r1 ∈ routers, ∀ r2 ∈ routers,
      matchesPair toLowerCase (normalizeCity toLowerCase (.str r1.origin))
        (normalizeCity toLowerCase (.str r1.destination)) r2 = true →
      r1.distanceKm = r2.distanceKm := by
  intro r1 h1 r2 h2 hm
  obtain ⟨e1, e2⟩ := normalizeCity_origin ht h1
  rw [e1, e2, matchesPair_of_lowercases ht h2] at hm
  exact routers_consistent_ascii r1 h1 r2 h2 hm

/-- Two facts of the table that match the same pair carry the same distance. -/
theorem routers_match_same {toLowerCase : String → String}
    (ht : LowercasesRouters toLowerCase) (o d : String) {r1 r2 : Route}
    (h1 : r1 ∈ routers) (h2 : r2 ∈ routers)
    (m1 : matchesPair toLowerCase o d r1 = true) (m2 : matchesPair toLowerCase o d r2 = true) :
    r1.distanceKm = r2.distanceKm := by
  apply routers_consistent ht r1 h1 r2 h2
  unfold matchesPair at m1 m2 ⊢
  simp only [decide_eq_true_eq] at m1 m2 ⊢
  rcases m1 with ⟨a1, b1⟩ | ⟨a1, b1⟩ <;> rcases m2 with ⟨a2, b2⟩ | ⟨a2, b2⟩
  · exact Or.inl ⟨a2.trans a1.symm, b2.trans b1.symm⟩
  · exact Or.inr ⟨a2.trans b1.symm, b2.trans a1.symm⟩
  · exact Or.inr ⟨a2.trans b1.symm, b2.trans a1.symm⟩
  · exact Or.inl ⟨a2.trans a1.symm, b2.trans b1.symm⟩

/-- On a list in which the elements satisfying `p` agree under `f`, the first
such element gives the same value in every permutation of the list. -/
theorem find_map_perm {α β : Type} (p : α → Bool) (f : α → β) {t t' : List α}
    (hp : t'.Perm t) (hc : ∀ x ∈ t, ∀ y ∈ t, p x = true → p y = true → f x = f y) :
    (t'.find? p).map f = (t.find? p).map f := by
  cases h : t.find? p with
  | none =>
    rw [List.find?_eq_none] at h
    have : t'.find? p = none := by
      rw [List.find?_eq_none]
      intro x hx
      exact h x (hp.mem_iff.mp hx)
    rw [this]
  | some x =>
    have hx := List.find?_some h
    have hxm := List.mem_of_find?_eq_some h
    cases h' : t'.find? p with
    | none =>
      rw [List.find?_eq_none] at h'
      exact absurd hx (h' x (hp.mem_iff.mpr hxm))
    | some y =>
      have hy := List.find?_some h'
      have hym := hp.mem_iff.mp (List.mem_of_find?_eq_some h')
      simp only [Option.map]
      rw [hc y hym x hxm hy hx]

/-! ## Finite and ordered results: lemmas for the price estimate and the form pipeline -/

theorem roundBinary_pow2_1006 : roundBinary (pow2 1006) = pow2 1006 := by decide!

theorem roundBinary_pow2_1005 : roundBinary (pow2 1005) = pow2 1005 := by decide!

theorem round_fin_bound {n : ℕ} {F p : ℚ} (hF : mathPow10 n = fin F) (hF1 : 1 ≤ F)
    (hF2 : F ≤ 10000) (h0 : 0 ≤ p) (h1 : p ≤ pow2 1005) :
    ∃ r, Calculator.round (fin p) n = fin r ∧ 0 ≤ r ∧ r ≤ pow2 1006 := by
  have e1023 : pow2 1023 = pow2 1005 * 262144 := by
    rw [show (1023 : ℤ) = 1005 + 18 by norm_num, pow2_add]
    congr 1
  have e1006 : pow2 1006 = pow2 1005 * 2 := by
    rw [show (1006 : ℤ) = 1005 + 1 by norm_num, pow2_add]
    congr 1
  have e1022 : pow2 (-1022) ≤ 1 / 9007199254740992 := by
    rw [← pow2_neg53]; exact pow2_le_pow2 (by norm_num)
  have hX : 1 ≤ pow2 1005 := by
    have := pow2_le_pow2 (show (0 : ℤ) ≤ 1005 by norm_num)
    rwa [show pow2 0 = 1 from rfl] at this
  obtain ⟨a1, a2, a3⟩ := fl_normal (q := p + pow2 (-52))
    (by rw [pow2_neg52]; linarith)
    (by rw [e1023, pow2_neg52]; linarith)
  set y := roundBinary (p + pow2 (-52)) with hy
  rw [pow2_neg52] at a2 a3
  have hy0 : 0 ≤ y := by linarith
  have hyF1 : y ≤ y * F := by nlinarith
  have hyF2 : y * F ≤ y * 10000 := by nlinarith
  obtain ⟨b1, b2, b3⟩ := fl_normal (q := y * F)
    (by linarith)
    (by rw [e1023]; linarith)
  set s := roundBinary (y * F) with hs
  have hs0 : 0 ≤ s := by
    have : 0 ≤ y * F := by linarith
    nlinarith
  have hK0 : (0 : ℤ) ≤ ⌊s + 1 / 2⌋ := Int.floor_nonneg.mpr (by linarith)
  have hF0 : (0 : ℚ) < F := by linarith
  have f1 := Int.floor_le (s + 1 / 2)
  have hq0 : 0 ≤ ((⌊s + 1 / 2⌋ : ℤ) : ℚ) / F := div_nonneg (by exact_mod_cast hK0) hF0.le
  have hq1 : ((⌊s + 1 / 2⌋ : ℤ) : ℚ) / F ≤ pow2 1006 := by
    rw [div_le_iff₀ hF0, e1006]
    have t1 : y * (1 + 1 / 9007199254740992) + 1 / 2 ≤ pow2 1005 * 2 := by linarith
    have t2 : y * F * (1 + 1 / 9007199254740992) + 1 / 2 ≤
        (y * (1 + 1 / 9007199254740992) + 1 / 2) * F := by nlinarith
    have t3 : (y * (1 + 1 / 9007199254740992) + 1 / 2) * F ≤ pow2 1005 * 2 * F :=
      mul_le_mul_of_nonneg_right t1 hF0.le
    linarith
  have hfin : fl (((⌊s + 1 / 2⌋ : ℤ) : ℚ) / F) = fin (roundBinary (((⌊s + 1 / 2⌋ : ℤ) : ℚ) / F)) := by
    apply fl_eq_fin
    rw [abs_of_nonneg hq0]
    refine hq1.trans (pow2_le_pow2 (by norm_num))
  refine ⟨roundBinary (((⌊s + 1 / 2⌋ : ℤ) : ℚ) / F), ?_, roundBinary_nonneg hq0, ?_⟩
  · unfold Calculator.round
    simp only [hF, EPSILON, add, a1, mul, b1, mathRound, div]
    rw [if_neg hF0.ne', hfin]
  · have := roundBinary_mono hq1
    rwa [roundBinary_pow2_1006] at this

theorem mul_fin_bound {d f : ℚ} (hd0 : 0 ≤ d) (hd : d ≤ pow2 1005) (hf0 : 0 ≤ f) (hf1 : f ≤ 1) :
    ∃ p, mul (fin d) (fin f) = fin p ∧ 0 ≤ p ∧ p ≤ pow2 1005 := by
  have h1 : 0 ≤ d * f := mul_nonneg hd0 hf0
  have h2 : d * f ≤ pow2 1005 := by nlinarith
  refine ⟨roundBinary (d * f), ?_, roundBinary_nonneg h1, ?_⟩
  · show fl (d * f) = _
    apply fl_eq_fin
    rw [abs_of_nonneg h1]
    exact h2.trans (pow2_le_pow2 (by norm_num))
  · have := roundBinary_mono h2
    rwa [roundBinary_pow2_1005] at this

theorem calculateEmission_bound {d f : ℚ} {m : String} (hd0 : 0 ≤ d) (hd : d ≤ pow2 1005)
    (hm : CONFIG.EMISSION_FACTORS.lookup m = some (fin f)) :
    ∃ e, calculateEmission (fin d) m = some (fin e) ∧ 0 ≤ e ∧ e ≤ pow2 1006 := by
  obtain ⟨f', hf', hf0, hf1⟩ := lookup_factor hm
  injection hf' with hf'
  subst hf'
  obtain ⟨p, hp, hp0, hp1⟩ := mul_fin_bound hd0 hd hf0 hf1
  obtain ⟨e, he, he0, he1⟩ := round_fin_bound mathPow10_two (by norm_num) (by norm_num) hp0 hp1
  exact ⟨e, by rw [calculateEmission_fin hd0 hm, hp, he], he0, he1⟩

theorem calculateCarbonCredits_bound {e : ℚ} (he0 : 0 ≤ e) (he : e ≤ pow2 1006) :
    ∃ c, calculateCarbonCredits (fin e) = some (fin c) ∧ 0 ≤ c := by
  have e1006 : pow2 1006 = pow2 1005 * 2 := by
    rw [show (1006 : ℤ) = 1005 + 1 by norm_num, pow2_add]
    congr 1
  have h1 : 0 ≤ e / 1000 := by positivity
  have h2 : e / 1000 ≤ pow2 1005 := by
    have := pow2_pos 1005
    rw [div_le_iff₀ (by norm_num)]
    linarith
  have hq : div (fin e) (fin 1000) = fin (roundBinary (e / 1000)) := by
    have : div (fin e) (fin 1000) = fl (e / 1000) := by
      simp only [div]
      rw [if_neg (by norm_num)]
    rw [this]
    apply fl_eq_fin
    rw [abs_of_nonneg h1]
    exact h2.trans (pow2_le_pow2 (by norm_num))
  have hq1 : roundBinary (e / 1000) ≤ pow2 1005 := by
    have := roundBinary_mono h2
    rwa [roundBinary_pow2_1005] at this
  obtain ⟨c, hc, hc0, _⟩ := round_fin_bound mathPow10_four (by norm_num) (by norm_num)
    (roundBinary_nonneg h1) hq1
  refine ⟨c, ?_, hc0⟩
  unfold calculateCarbonCredits
  simp only [ofRat_1000, isFinite, lt, le, hq, hc]
  have : ¬ e < 0 := not_lt.mpr he0
  simp [this]

theorem estimateCreditPrice_isSome {c : ℚ} (hc : 0 ≤ c) :
    ∃ p, estimateCreditPrice (fin c) = some p := by
  unfold estimateCreditPrice
  simp only [ofRat_50, ofRat_150, isFinite, lt]
  have : ¬ c < 0 := not_lt.mpr hc
  simp [this]

theorem calculateSavings_isSome (e b : ℚ) : ∃ s, calculateSavings (fin e) (fin b) = some s := by
  unfold calculateSavings
  simp [isFinite]

theorem roundBinary_pow2_1024 : roundBinary (pow2 1024) = pow2 1024 := by decide!

theorem lt_of_fl_fin {q r : ℚ} (h : fl q = fin r) : q < pow2 1024 := by
  by_contra hq
  rw [not_lt] at hq
  have := roundBinary_mono hq
  rw [roundBinary_pow2_1024] at this
  unfold fl at h
  simp only at h
  rw [if_pos this] at h
  cases h

theorem fl_fin_rel {q r : ℚ} (h1 : pow2 (-1022) ≤ q) (h : fl q = fin r) :
    q * (1 - 1 / 9007199254740992) ≤ r ∧ r ≤ q * (1 + 1 / 9007199254740992) := by
  have hq : 0 < q := lt_of_lt_of_le (pow2_pos _) h1
  have e := roundBinary_rel_err (q := q) (by rw [abs_of_pos hq]; exact h1)
  rw [← fin_of_fl_eq h, abs_of_pos hq, pow2_neg53, abs_le] at e
  constructor <;> linarith

theorem round_two_rel {p r : ℚ} (h1 : 1 ≤ p) (h : Calculator.round (fin p) 2 = fin r) :
    p ≤ pow2 1018 ∧ 99 / 100 * p ≤ r ∧ r ≤ 101 / 100 * p := by
  have e1022 : pow2 (-1022) ≤ 1 / 4503599627370496 := by
    rw [← pow2_neg52]; exact pow2_le_pow2 (by norm_num)
  have e1024 : pow2 1024 = pow2 1018 * 64 := by
    rw [show (1024 : ℤ) = 1018 + 6 by norm_num, pow2_add]
    congr 1
  unfold Calculator.round at h
  simp only [mathPow10_two, EPSILON, add] at h
  cases hy : fl (p + pow2 (-52)) with
  | nan => exact absurd hy (fl_ne_nan _)
  | posInf =>
    rw [hy] at h; simp [mul, infTimes, mathRound, div] at h
    rw [if_neg (by norm_num)] at h; cases h
  | negInf =>
    rw [hy] at h; simp [mul, infTimes, mathRound, div] at h
    rw [if_neg (by norm_num)] at h; cases h
  | fin y =>
    rw [hy] at h
    simp only [mul] at h
    obtain ⟨y1, y2⟩ := fl_fin_rel (by rw [pow2_neg52]; linarith) hy
    rw [pow2_neg52] at y1 y2
    cases hs : fl (y * 100) with
    | nan => exact absurd hs (fl_ne_nan _)
    | posInf =>
      rw [hs] at h; simp [mathRound, div] at h
      rw [if_neg (by norm_num)] at h; cases h
    | negInf =>
      rw [hs] at h; simp [mathRound, div] at h
      rw [if_neg (by norm_num)] at h; cases h
    | fin s =>
      rw [hs] at h
      simp only [mathRound, div] at h
      rw [if_neg (by norm_num)] at h
      have hlt := lt_of_fl_fin hs
      obtain ⟨s1, s2⟩ := fl_fin_rel (by linarith) hs
      have f1 := Int.floor_le (s + 1 / 2)
      have f2 := Int.lt_floor_add_one (s + 1 / 2)
      obtain ⟨r1, r2⟩ := fl_fin_rel (q := ((⌊s + 1 / 2⌋ : ℤ) : ℚ) / 100) (by linarith) h
      rw [e1024] at hlt
      refine ⟨by linarith, by linarith, by linarith⟩

theorem ofRat_two : ofRat 2 = fin 2 := by decide!

theorem round_two_posInf : Calculator.round posInf 2 = posInf := by decide!

theorem round_two_nan : Calculator.round nan 2 = nan := by decide!

theorem round_two_negInf : Calculator.round negInf 2 = negInf := by decide!

theorem round_two_fin_inv {x : JSNumber} {r : ℚ} (h : Calculator.round x 2 = fin r) :
    ∃ p, x = fin p := by
  cases x with
  | nan => rw [round_two_nan] at h; cases h
  | posInf => rw [round_two_posInf] at h; cases h
  | negInf => rw [round_two_negInf] at h; cases h
  | fin p => exact ⟨p, rfl⟩

theorem price_average_large {c A B : ℚ} (hc : 4096 ≤ c)
    (hA : Calculator.round (mul (fin c) (fin 50)) 2 = fin A)
    (hB : Calculator.round (mul (fin c) (fin 150)) 2 = fin B) :
    le (fin A) (Calculator.round (div (add (fin A) (fin B)) (ofRat 2)) 2) = true ∧
      le (Calculator.round (div (add (fin A) (fin B)) (ofRat 2)) 2) (fin B) = true := by
  have e1022 : pow2 (-1022) ≤ 1 / 4503599627370496 := by
    rw [← pow2_neg52]; exact pow2_le_pow2 (by norm_num)
  have e1023 : pow2 1023 = pow2 1018 * 32 := by
    rw [show (1023 : ℤ) = 1018 + 5 by norm_num, pow2_add]
    congr 1
  obtain ⟨p1, hp1⟩ := round_two_fin_inv hA
  obtain ⟨p2, hp2⟩ := round_two_fin_inv hB
  rw [hp1] at hA
  rw [hp2] at hB
  have hp1' : fl (c * 50) = fin p1 := hp1
  have hp2' : fl (c * 150) = fin p2 := hp2
  obtain ⟨a1, a2⟩ := fl_fin_rel (by linarith) hp1'
  obtain ⟨b1, b2⟩ := fl_fin_rel (by linarith) hp2'
  obtain ⟨_, a3, a4⟩ := round_two_rel (by linarith) hA
  obtain ⟨b5, b3, b4⟩ := round_two_rel (by linarith) hB
  obtain ⟨s0, s1, s2⟩ := fl_normal (q := A + B) (by linarith) (by rw [e1023]; linarith)
  set S := roundBinary (A + B) with hS
  obtain ⟨t0, t1, t2⟩ := fl_normal (q := S / 2) (by linarith) (by rw [e1023]; linarith)
  set H := roundBinary (S / 2) with hH
  have eH : div (add (fin A) (fin B)) (ofRat 2) = fin H := by
    rw [ofRat_two]
    simp only [add, s0, div]
    rw [if_neg (by norm_num), t0]
  rw [eH]
  have l1 : le (fin p1) (fin H) = true := by
    simp only [le, decide_eq_true_eq]
    linarith
  have l2 : le (fin H) (fin p2) = true := by
    simp only [le, decide_eq_true_eq]
    linarith
  have m1 := round_two_mono l1
  have m2 := round_two_mono l2
  rw [hA] at m1
  rw [hB] at m2
  exact ⟨m1, m2⟩

theorem price_average_small {c : ℚ} (h0 : 0 ≤ c) (h1 : c ≤ 4096) :
    ∃ A B, Calculator.round (mul (fin c) (fin 50)) 2 = fin A ∧
      Calculator.round (mul (fin c) (fin 150)) 2 = fin B ∧
      le (fin A) (Calculator.round (div (add (fin A) (fin B)) (ofRat 2)) 2) = true ∧
      le (Calculator.round (div (add (fin A) (fin B)) (ofRat 2)) 2) (fin B) = true := by
  obtain ⟨p0, p1, p2⟩ := fl_small (q := c * 50) (by linarith) (by linarith)
  obtain ⟨q0, q1, q2⟩ := fl_small (q := c * 150) (by linarith) (by linarith)
  set P := roundBinary (c * 50) with hP
  set Q := roundBinary (c * 150) with hQ
  rw [abs_le] at p2 q2
  obtain ⟨kA, A, a0, a1, a2, a3, a4⟩ := round_two_small (p := P) p1 (by linarith)
  obtain ⟨kB, B, b0, b1, b2, b3, b4⟩ := round_two_small (p := Q) q1 (by linarith)
  rw [abs_le] at a3 a4 b3 b4
  have hA : Calculator.round (mul (fin c) (fin 50)) 2 = fin A := by
    simp only [mul, p0, a0, a1]
  have hB : Calculator.round (mul (fin c) (fin 150)) 2 = fin B := by
    simp only [mul, q0, b0, b1]
  obtain ⟨s0, s1, s2⟩ := fl_small (q := A + B) (by linarith) (by linarith)
  set S := roundBinary (A + B) with hS
  rw [abs_le] at s2
  obtain ⟨t0, t1, t2⟩ := fl_small (q := S / 2) (by linarith) (by linarith)
  set H := roundBinary (S / 2) with hH
  rw [abs_le] at t2
  have eH : div (add (fin A) (fin B)) (ofRat 2) = fin H := by
    rw [ofRat_two]
    simp only [add, s0, div]
    rw [if_neg (by norm_num), t0]
  have hAB : A ≤ B := by
    have := round_two_mono (fl_mono (show c * 50 ≤ c * 150 by linarith))
    rw [p0, q0, a0, a1, b0, b1] at this
    simpa [le] using this
  refine ⟨A, B, hA, hB, ?_, ?_⟩
  · have hk0 : kA = 0 ∨ 1 / 4194304 ≤ A := by
      by_cases hA0 : 1 / 4194304 ≤ A
      · exact Or.inr hA0
      · left
        rw [not_le] at hA0
        have u1 : (kA : ℚ) < 1 := by linarith
        have u2 : (-1 : ℚ) < kA := by linarith
        have u1' : kA < 1 := by exact_mod_cast u1
        have u2' : -1 < kA := by exact_mod_cast u2
        omega
    have near : Calculator.round (fin (max (A - 1 / 4194304) 0)) 2 = fl ((kA : ℚ) / 100) := by
      apply round_two_near (le_max_right _ _) (max_le (by linarith) (by norm_num))
      rcases hk0 with hk | hk
      · have : A - 1 / 4194304 ≤ 0 := by
          rw [hk] at a3
          norm_num at a3
          linarith
        rw [max_eq_right this, hk]
        norm_num
      · rw [max_eq_left (by linarith), abs_le]
        constructor <;> linarith
    have l1 : le (fin (max (A - 1 / 4194304) 0)) (fin H) = true := by
      simp only [le, decide_eq_true_eq]
      exact max_le (by linarith) t1
    have m1 := round_two_mono l1
    rw [near, a1, ← eH] at m1
    exact m1
  · have near : Calculator.round (fin (B + 1 / 4194304)) 2 = fl ((kB : ℚ) / 100) := by
      apply round_two_near (by linarith) (by linarith)
      rw [abs_le]
      constructor <;> linarith
    have l2 : le (fin H) (fin (B + 1 / 4194304)) = true := by
      simp only [le, decide_eq_true_eq]
      linarith
    have m2 := round_two_mono l2
    rw [near, b1, ← eH] at m2
    exact m2

theorem estimateCreditPrice_fin {c : ℚ} (hc : 0 ≤ c) :
    estimateCreditPrice (fin c) =
      some { min := Calculator.round (mul (fin c) (fin 50)) 2
             max := Calculator.round (mul (fin c) (fin 150)) 2
             average := Calculator.round (div (add (Calculator.round (mul (fin c) (fin 50)) 2)
               (Calculator.round (mul (fin c) (fin 150)) 2)) (ofRat 2)) 2 } := by
  unfold estimateCreditPrice
  simp only [ofRat_50, ofRat_150, isFinite, lt]
  have : ¬ c < 0 := not_lt.mpr hc
  simp [this]

/-! ## Claims on the route table, the price estimate and the calculations of the form -/

/-- C11. `findDistance` is symmetric: `findDistance(a, b) = findDistance(b, a)` for
all arguments and whatever `toLowerCase` does; and with a `toLowerCase` that
lowercases the two inputs and the city names of the table as JavaScript does,
`findDistance("são paulo, sp", "RIO DE JANEIRO, RJ")` and
`findDistance("Rio de Janeiro, RJ", "São Paulo, SP")` are both `430`. -/
theorem findDistance_symmetric (toLowerCase : String → String) (a b : JSValue)
    (ht : LowercasesRouters toLowerCase)
    (h1 : toLowerCase "são paulo, sp" = "são paulo, sp")
    (h2 : toLowerCase "RIO DE JANEIRO, RJ" = "rio de janeiro, rj") :
    findDistance toLowerCase a b = findDistance toLowerCase b a ∧
      findDistance toLowerCase (.str "são paulo, sp") (.str "RIO DE JANEIRO, RJ")
        = some (fin 430) ∧
      findDistance toLowerCase (.str "Rio de Janeiro, RJ") (.str "São Paulo, SP")
        = some (fin 430) := by
  have t1 : trim "são paulo, sp" = "são paulo, sp" := by decide
  have t2 : trim "RIO DE JANEIRO, RJ" = "RIO DE JANEIRO, RJ" := by decide
  have t3 : trim "São Paulo, SP" = "São Paulo, SP" := by decide
  have t4 : trim "Rio de Janeiro, RJ" = "Rio de Janeiro, RJ" := by decide
  have r0 := ht ⟨"São Paulo, SP", "Rio de Janeiro, RJ", fin 430⟩ (by decide)
  simp only [t3, t4] at r0
  have l3 : toLowerCaseAscii "São Paulo, SP" = "são paulo, sp" := by decide
  have l4 : toLowerCaseAscii "Rio de Janeiro, RJ" = "rio de janeiro, rj" := by decide
  rw [l3, l4] at r0
  have key : findDistance toLowerCase (.str "São Paulo, SP") (.str "Rio de Janeiro, RJ")
      = some (fin 430) := by
    unfold findDistance findDistanceIn routers
    simp only [normalizeCity, t3, t4, r0.1, r0.2]
    rw [if_neg (by decide)]
    unfold findDistanceLoop
    simp only [normalizeCity, t3, t4, r0.1, r0.2, and_self, if_true]
  refine ⟨findDistanceIn_comm toLowerCase routers a b, ?_, ?_⟩
  · have e : findDistance toLowerCase (.str "são paulo, sp") (.str "RIO DE JANEIRO, RJ") =
        findDistance toLowerCase (.str "São Paulo, SP") (.str "Rio de Janeiro, RJ") := by
      unfold findDistance findDistanceIn
      simp only [normalizeCity, t1, t2, t3, t4, h1, h2, r0.1, r0.2]
    rw [e, key]
  · rw [show findDistance toLowerCase (.str "Rio de Janeiro, RJ") (.str "São Paulo, SP") =
        findDistance toLowerCase (.str "São Paulo, SP") (.str "Rio de Janeiro, RJ") from
        findDistanceIn_comm toLowerCase routers _ _, key]

/-- C11 with the lowercasing of `A`-`Z`, at `a = "Niterói, RJ"`,
`b = "rio de janeiro, rj"`. -/
theorem findDistance_symmetric_witness :
    findDistance toLowerCaseAscii (.str "Niterói, RJ") (.str "rio de janeiro, rj") =
        findDistance toLowerCaseAscii (.str "rio de janeiro, rj") (.str "Niterói, RJ") ∧
      findDistance toLowerCaseAscii (.str "são paulo, sp") (.str "RIO DE JANEIRO, RJ")
        = some (fin 430) ∧
      findDistance toLowerCaseAscii (.str "Rio de Janeiro, RJ") (.str "São Paulo, SP")
        = some (fin 430) :=
  findDistance_symmetric toLowerCaseAscii (.str "Niterói, RJ") (.str "rio de janeiro, rj")
    lowercasesRouters_ascii (by decide) (by decide)

/-- C12. `findDistance` sees its arguments only through `normalizeCity`: strings
with the same trimmed lowercase forms give the same result, whatever
`toLowerCase` does; and when trimming and lowercasing a normalized string
changes nothing, as in JavaScript,
`findDistance(a, b) = findDistance(normalize(a), normalize(b))`. -/
theorem findDistance_normalized (toLowerCase : String → String) (a a' b b' : String)
    (ha : normalizeCity toLowerCase (.str a) = normalizeCity toLowerCase (.str a'))
    (hb : normalizeCity toLowerCase (.str b) = normalizeCity toLowerCase (.str b'))
    (hidem : ∀ s, toLowerCase (trim (toLowerCase (trim s))) = toLowerCase (trim s)) :
    findDistance toLowerCase (.str a) (.str b) = findDistance toLowerCase (.str a') (.str b') ∧
      findDistance toLowerCase (.str a) (.str b) =
        findDistance toLowerCase (.str (normalizeCity toLowerCase (.str a)))
          (.str (normalizeCity toLowerCase (.str b))) := by
  constructor
  · unfold findDistance findDistanceIn
    simp only [ha, hb]
  · unfold findDistance findDistanceIn
    have e : ∀ s, normalizeCity toLowerCase (.str (normalizeCity toLowerCase (.str s))) =
        normalizeCity toLowerCase (.str s) := fun s => hidem s
    simp only [e]

/-- C12 with the lowercasing of `A`-`Z`, at `a = "  São Paulo, sp "`,
`a' = "são paulo, SP"`, `b = "Santos, SP"` and `b' = "SANTOS, SP"` followed by a
line feed. -/
theorem findDistance_normalized_witness :
    findDistance toLowerCaseAscii (.str "  São Paulo, sp ") (.str "Santos, SP") =
        findDistance toLowerCaseAscii (.str "são paulo, SP") (.str "SANTOS, SP\n") ∧
      findDistance toLowerCaseAscii (.str "  São Paulo, sp ") (.str "Santos, SP") =
        findDistance toLowerCaseAscii
          (.str (normalizeCity toLowerCaseAscii (.str "  São Paulo, sp ")))
          (.str (normalizeCity toLowerCaseAscii (.str "Santos, SP"))) :=
  findDistance_normalized toLowerCaseAscii "  São Paulo, sp " "são paulo, SP" "Santos, SP"
    "SANTOS, SP\n" (by decide) (by decide) normalize_ascii_idem

/-- C13. `findDistance(origin, destination)` is `null` exactly when an argument
normalizes to the empty string (a value that is not a string does) or no fact
of the table matches the normalized pair forwards or swapped; otherwise it is
the `distanceKm` of the first fact, in table order, that matches in either
direction: the facts before it in the table do not match. -/
theorem findDistance_first_match (toLowerCase : String → String) (origin destination : JSValue) :
    (findDistance toLowerCase origin destination = none ↔
      (normalizeCity toLowerCase origin = "" ∨ normalizeCity toLowerCase destination = "" ∨
        ∀ r ∈ routers, matchesPair toLowerCase (normalizeCity toLowerCase origin)
          (normalizeCity toLowerCase destination) r = false)) ∧
    findDistance toLowerCase origin destination =
      (if normalizeCity toLowerCase origin = "" ∨ normalizeCity toLowerCase destination = ""
       then none
       else (routers.find? (matchesPair toLowerCase (normalizeCity toLowerCase origin)
          (normalizeCity toLowerCase destination))).map (fun r => r.distanceKm)) ∧
    (∀ r, matchesPair toLowerCase (normalizeCity toLowerCase origin)
        (normalizeCity toLowerCase destination) r = true ↔
      ((toLowerCase (trim r.origin) = normalizeCity toLowerCase origin ∧
          toLowerCase (trim r.destination) = normalizeCity toLowerCase destination) ∨
        (toLowerCase (trim r.origin) = normalizeCity toLowerCase destination ∧
          toLowerCase (trim r.destination) = normalizeCity toLowerCase origin))) ∧
    (∀ x, findDistance toLowerCase origin destination = some x →
      ∃ before r after, routers = before ++ r :: after ∧
        (∀ q ∈ before, matchesPair toLowerCase (normalizeCity toLowerCase origin)
          (normalizeCity toLowerCase destination) q = false) ∧
        matchesPair toLowerCase (normalizeCity toLowerCase origin)
          (normalizeCity toLowerCase destination) r = true ∧
        x = r.distanceKm) ∧
    normalizeCity toLowerCase .other = "" ∧
    findDistance toLowerCase .other destination = none ∧
    findDistance toLowerCase origin .other = none := by
  have heq := findDistanceIn_eq toLowerCase routers origin destination
  refine ⟨?_, heq, ?_, ?_, rfl, ?_, ?_⟩
  · rw [show findDistance toLowerCase origin destination =
      findDistanceIn toLowerCase routers origin destination from rfl, heq]
    by_cases h : normalizeCity toLowerCase origin = "" ∨
        normalizeCity toLowerCase destination = ""
    · rw [if_pos h]
      simp only [true_iff]
      rcases h with h | h
      · exact Or.inl h
      · exact Or.inr (Or.inl h)
    · rw [if_neg h]
      rw [Option.map_eq_none', List.find?_eq_none]
      push_neg at h
      constructor
      · intro hn
        exact Or.inr (Or.inr (fun r hr => by simpa using hn r hr))
      · intro hn r hr
        rcases hn with hn | hn | hn
        · exact absurd hn h.1
        · exact absurd hn h.2
        · simp [hn r hr]
  · intro r
    unfold matchesPair
    simp only [decide_eq_true_eq, normalizeCity]
  · intro x hx
    rw [show findDistance toLowerCase origin destination =
      findDistanceIn toLowerCase routers origin destination from rfl, heq] at hx
    split_ifs at hx
    rw [Option.map_eq_some'] at hx
    obtain ⟨r, hr, rfl⟩ := hx
    rw [List.find?_eq_some] at hr
    obtain ⟨hp, as, bs, e, hall⟩ := hr
    exact ⟨as, r, bs, e, fun q hq => by simpa using hall q hq, hp, rfl⟩
  · unfold findDistance findDistanceIn
    simp [normalizeCity]
  · unfold findDistance findDistanceIn
    simp [normalizeCity]

/-- C14. `getAllCities()` returns a list without duplicates whose elements are
exactly the strings that are the origin or the destination of a fact of the
table, whatever order `localeCompare` induces; the table names 40 cities. -/
theorem getAllCities_nodup_exact (localeCompare : String → String → JSNumber) :
    (getAllCities localeCompare).Nodup ∧
      (∀ x, x ∈ getAllCities localeCompare ↔
        ∃ r ∈ routers, x = r.origin ∨ x = r.destination) ∧
      (getAllCities localeCompare).length = 40 := by
  obtain ⟨n, m⟩ := foldl_cityKeys routers [] List.nodup_nil
  have hp : (getAllCities localeCompare).Perm (cityKeys routers) := arraySort_perm _ _
  refine ⟨hp.nodup_iff.mpr n, fun x => ?_, ?_⟩
  · rw [hp.mem_iff]
    have := m x
    simpa using this
  · rw [hp.length_eq]
    decide!

/-- C15. For every finite credits `c ≥ 0`, `estimateCreditPrice(c)` is an object
with `0 ≤ min ≤ average ≤ max` (`≤` of JavaScript, so none of the three is
`NaN`; for a `c` so large that `max` overflows, `average` and `max` are both
`Infinity`). -/
theorem estimateCreditPrice_ordered (c : ℚ) (hc : 0 ≤ c) :
    ∃ p, estimateCreditPrice (fin c) = some p ∧
      le (fin 0) p.min = true ∧ le p.min p.average = true ∧ le p.average p.max = true := by
  refine ⟨_, estimateCreditPrice_fin hc, ?_⟩
  simp only
  have hmin : le (fin 0) (Calculator.round (mul (fin c) (fin 50)) 2) = true := by
    have h : le (fl 0) (fl (c * 50)) = true := fl_mono (by linarith)
    have := round_two_mono h
    rwa [fl_zero, round_zero_two] at this
  have hmm : le (Calculator.round (mul (fin c) (fin 50)) 2)
      (Calculator.round (mul (fin c) (fin 150)) 2) = true :=
    round_two_mono (fl_mono (show c * 50 ≤ c * 150 by linarith))
  refine ⟨hmin, ?_⟩
  by_cases hs : c ≤ 4096
  · obtain ⟨A, B, hA, hB, h1, h2⟩ := price_average_small hc hs
    rw [hA, hB]
    exact ⟨h1, h2⟩
  · rw [not_le] at hs
    cases hB : Calculator.round (mul (fin c) (fin 150)) 2 with
    | nan => rw [hB] at hmm; exact absurd rfl (ne_nan_of_le_right hmm)
    | negInf =>
      rw [hB] at hmm
      have := le_trans_js hmin hmm
      simp [le] at this
    | posInf =>
      cases hA : Calculator.round (mul (fin c) (fin 50)) 2 with
      | nan => rw [hA] at hmin; exact absurd rfl (ne_nan_of_le_right hmin)
      | negInf => rw [hA] at hmin; simp [le] at hmin
      | posInf => decide!
      | fin A =>
        have e : div (add (fin A) posInf) (ofRat 2) = posInf := by
          rw [ofRat_two]
          simp only [add, div]
          rw [if_neg (by norm_num)]
        rw [e, round_two_posInf]
        simp [le]
    | fin B =>
      cases hA : Calculator.round (mul (fin c) (fin 50)) 2 with
      | nan => rw [hA] at hmin; exact absurd rfl (ne_nan_of_le_right hmin)
      | negInf => rw [hA] at hmin; simp [le] at hmin
      | posInf => rw [hA, hB] at hmm; simp [le] at hmm
      | fin A => exact price_average_large hs.le hA hB

/-- C15 at `c = 0.5` credits. -/
theorem estimateCreditPrice_ordered_witness :
    ∃ p, estimateCreditPrice (fin (1 / 2)) = some p ∧
      le (fin 0) p.min = true ∧ le p.min p.average = true ∧ le p.average p.max = true :=
  estimateCreditPrice_ordered (1 / 2) (by norm_num)

/-- C16 fails at the finite distance `2^1023` km, which the validation accepts:
`calculateEmission` gives `Infinity` for `truck` and for `car` (the product is
finite, the multiplication by `100` inside `round` overflows), so
`calculateCarbonCredits(emission)` and `calculateSavings(emission, carEmission)`
return `null`, `estimateCreditPrice` is not called, and the calculations end
with `savings`, `credits` and `priceEstimate` all `null` (the error branch is
not taken). -/
theorem calculations_abstain_at_huge_distance :
    App.validDistance (fin (pow2 1023)) = true ∧
    calculateEmission (fin (pow2 1023)) "truck" = some posInf ∧
    calculateEmission (fin (pow2 1023)) "car" = some posInf ∧
    calculateCarbonCredits posInf = none ∧
    calculateSavings posInf posInf = none ∧
    App.calculations (fin (pow2 1023)) "truck" =
      .ok { emission := posInf, carEmission := some posInf, savings := none,
            allModes := calculateAllModes (fin (pow2 1023)), credits := none,
            priceEstimate := none } := by
  have h1 : calculateEmission (fin (pow2 1023)) "truck" = some posInf := by decide!
  have h2 : calculateEmission (fin (pow2 1023)) "car" = some posInf := by decide!
  have h3 : calculateCarbonCredits posInf = none := by decide!
  have h4 : calculateSavings posInf posInf = none := by decide!
  refine ⟨by decide!, h1, h2, h3, h4, ?_⟩
  unfold App.calculations
  simp only [h1, h2, h3, h4]
  rfl

/-- C16, amended. For a configured mode `m` and a finite distance `d > 0`, which
the validation accepts, `calculateEmission(d, m)` and `calculateAllModes(d)` are
non-null, so the calculations never take the error branch; and when moreover
`d ≤ 2^1005` the emission of `m` and that of `car` are finite numbers,
`calculateCarbonCredits(emission)` is a finite number `c ≥ 0`,
`estimateCreditPrice(c)` and `calculateSavings(emission, carEmission)` are
non-null, and the calculations end with these values (`savings` being computed
only for a mode other than `car`). -/
theorem calculations_never_abstain (d f : ℚ) (m : String) (hd : 0 < d)
    (hm : CONFIG.EMISSION_FACTORS.lookup m = some (fin f)) :
    App.validDistance (fin d) = true ∧
    (∃ e, calculateEmission (fin d) m = some e) ∧
    (∃ l, calculateAllModes (fin d) = some l) ∧
    (∃ res, App.calculations (fin d) m = .ok res) ∧
    (d ≤ pow2 1005 →
      ∃ e car c p s, calculateEmission (fin d) m = some (fin e) ∧
        calculateEmission (fin d) "car" = some (fin car) ∧
        calculateCarbonCredits (fin e) = some (fin c) ∧ 0 ≤ c ∧
        estimateCreditPrice (fin c) = some p ∧
        calculateSavings (fin e) (fin car) = some s ∧
        App.calculations (fin d) m =
          .ok { emission := fin e, carEmission := some (fin car),
                savings := if m ≠ "car" then some s else none,
                allModes := calculateAllModes (fin d), credits := some (fin c),
                priceEstimate := some p }) := by
  have he := calculateEmission_fin hd.le hm
  refine ⟨?_, ⟨_, he⟩, ⟨_, calculateAllModes_unfold hd.le⟩, ?_, ?_⟩
  · unfold App.validDistance
    have h1 : ¬ d ≤ 0 := not_le.mpr hd
    have h2 : (fin d == fin 0) = false := by
      rw [beq_eq_false_iff_ne]
      intro h
      injection h with h
      exact hd.ne' h
    have h3 : (fin d == nan) = false := by
      rw [beq_eq_false_iff_ne]
      intro h
      cases h
    simp [h2, h3, le, h1]
  · unfold App.calculations
    rw [he]
    exact ⟨_, rfl⟩
  · intro hd5
    obtain ⟨e, h1, he0, he1⟩ := calculateEmission_bound hd.le hd5 hm
    obtain ⟨car, h2, _, _⟩ := calculateEmission_bound hd.le hd5 lookup_car
    obtain ⟨c, h3, hc0⟩ := calculateCarbonCredits_bound he0 he1
    obtain ⟨p, h4⟩ := estimateCreditPrice_isSome hc0
    obtain ⟨s, h5⟩ := calculateSavings_isSome e car
    refine ⟨e, car, c, p, s, h1, h2, h3, hc0, h4, h5, ?_⟩
    unfold App.calculations
    simp only [h1, h2, h3, h4, h5]

/-- C16 amended at `d = 430` km and the mode `bus`, where `d ≤ 2^1005`. -/
theorem calculations_never_abstain_witness :
    App.validDistance (fin 430) = true ∧
    (∃ e, calculateEmission (fin 430) "bus" = some e) ∧
    (∃ l, calculateAllModes (fin 430) = some l) ∧
    (∃ res, App.calculations (fin 430) "bus" = .ok res) ∧
    (∃ e car c p s, calculateEmission (fin 430) "bus" = some (fin e) ∧
        calculateEmission (fin 430) "car" = some (fin car) ∧
        calculateCarbonCredits (fin e) = some (fin c) ∧ 0 ≤ c ∧
        estimateCreditPrice (fin c) = some p ∧
        calculateSavings (fin e) (fin car) = some s ∧
        App.calculations (fin 430) "bus" =
          .ok { emission := fin e, carEmission := some (fin car),
                savings := if "bus" ≠ "car" then some s else none,
                allModes := calculateAllModes (fin 430), credits := some (fin c),
                priceEstimate := some p }) :=
  have h := calculations_never_abstain 430 (3206562934687793 / 36028797018963968) "bus"
    (by norm_num) lookup_bus
  ⟨h.1, h.2.1, h.2.2.1, h.2.2.2.1, h.2.2.2.2 (by decide!)⟩

/-- C17. With a `toLowerCase` that lowercases the city names of the table as
JavaScript does: two facts of `routers` that name the same unordered pair of
normalized cities carry the same `distanceKm`; two facts at different places
that do are both `Rio de Janeiro, RJ - Niterói, RJ` with `13`, the fifth and
the thirty-fifth fact of the table; hence
`findDistance` gives the same result over every reordering of the table; and
every distance it returns is positive. -/
theorem findDistance_order_independent (toLowerCase : String → String)
    (ht : LowercasesRouters toLowerCase) :
    (∀ r1 ∈ routers, ∀ r2 ∈ routers,
      matchesPair toLowerCase (normalizeCity toLowerCase (.str r1.origin))
        (normalizeCity toLowerCase (.str r1.destination)) r2 = true →
      r1.distanceKm = r2.distanceKm) ∧
    routers.Pairwise (fun r1 r2 =>
      matchesPair toLowerCase (normalizeCity toLowerCase (.str r1.origin))
        (normalizeCity toLowerCase (.str r1.destination)) r2 = true →
      r1 = ⟨"Rio de Janeiro, RJ", "Niterói, RJ", fin 13⟩ ∧
        r2 = ⟨"Rio de Janeiro, RJ", "Niterói, RJ", fin 13⟩) ∧
    routers[4]? = some ⟨"Rio de Janeiro, RJ", "Niterói, RJ", fin 13⟩ ∧
    routers[34]? = some ⟨"Rio de Janeiro, RJ", "Niterói, RJ", fin 13⟩ ∧
    (∀ table : List Route, table.Perm routers → ∀ a b,
      findDistanceIn toLowerCase table a b = findDistance toLowerCase a b) ∧
    (∀ a b x, findDistance toLowerCase a b = some x → lt (fin 0) x = true) := by
  refine ⟨routers_consistent ht, ?_, by decide!, by decide!, ?_, ?_⟩
  · refine routers_repeated_ascii.imp_of_mem ?_
    intro r1 r2 h1 h2 h hm
    obtain ⟨e1, e2⟩ := normalizeCity_origin ht h1
    rw [e1, e2, matchesPair_of_lowercases ht h2] at hm
    exact h hm
  · intro table hp a b
    rw [show findDistance toLowerCase a b = findDistanceIn toLowerCase routers a b from rfl,
      findDistanceIn_eq, findDistanceIn_eq]
    rw [find_map_perm _ _ hp
      (fun x hx y hy px py => routers_match_same ht _ _ hx hy px py)]
  · intro a b x h
    rw [show findDistance toLowerCase a b = findDistanceIn toLowerCase routers a b from rfl,
      findDistanceIn_eq] at h
    split_ifs at h
    rw [Option.map_eq_some'] at h
    obtain ⟨r, hr, rfl⟩ := h
    exact routers_positive r (List.mem_of_find?_eq_some hr)

/-- C17 with the lowercasing of `A`-`Z`. -/
theorem findDistance_order_independent_witness :
    (∀ r1 ∈ routers, ∀ r2 ∈ routers,
      matchesPair toLowerCaseAscii (normalizeCity toLowerCaseAscii (.str r1.origin))
        (normalizeCity toLowerCaseAscii (.str r1.destination)) r2 = true →
      r1.distanceKm = r2.distanceKm) ∧
    routers.Pairwise (fun r1 r2 =>
      matchesPair toLowerCaseAscii (normalizeCity toLowerCaseAscii (.str r1.origin))
        (normalizeCity toLowerCaseAscii (.str r1.destination)) r2 = true →
      r1 = ⟨"Rio de Janeiro, RJ", "Niterói, RJ", fin 13⟩ ∧
        r2 = ⟨"Rio de Janeiro, RJ", "Niterói, RJ", fin 13⟩) ∧
    routers[4]? = some ⟨"Rio de Janeiro, RJ", "Niterói, RJ", fin 13⟩ ∧
    routers[34]? = some ⟨"Rio de Janeiro, RJ", "Niterói, RJ", fin 13⟩ ∧
    (∀ table : List Route, table.Perm routers → ∀ a b,
      findDistanceIn toLowerCaseAscii table a b = findDistance toLowerCaseAscii a b) ∧
    (∀ a b x, findDistance toLowerCaseAscii a b = some x → lt (fin 0) x = true) :=
  findDistance_order_independent toLowerCaseAscii lowercasesRouters_ascii

/-- C18. For a configured mode `m` and finite distances `0 ≤ d1 ≤ d2`, the two
emissions are numbers with `0 ≤ calculateEmission(d1, m) ≤ calculateEmission(d2, m)`
(`≤` of JavaScript, so neither is `NaN`). -/
theorem calculateEmission_monotone (d1 d2 f : ℚ) (m : String) (h0 : 0 ≤ d1) (h12 : d1 ≤ d2)
    (hm : CONFIG.EMISSION_FACTORS.lookup m = some (fin f)) :
    ∃ r1 r2, calculateEmission (fin d1) m = some r1 ∧ calculateEmission (fin d2) m = some r2 ∧
      le (fin 0) r1 = true ∧ le r1 r2 = true := by
  obtain ⟨f', hf', hf0, _⟩ := lookup_factor hm
  injection hf' with hf'
  subst hf'
  refine ⟨_, _, calculateEmission_fin h0 hm, calculateEmission_fin (h0.trans h12) hm, ?_, ?_⟩
  · have h : le (fl 0) (fl (d1 * f)) = true := fl_mono (mul_nonneg h0 hf0)
    have := round_two_mono h
    rwa [fl_zero, round_zero_two] at this
  · exact round_two_mono (fl_mono (mul_le_mul_of_nonneg_right h12 hf0))

/-- C18 at `d1 = 95`, `d2 = 430` and the mode `bus`. -/
theorem calculateEmission_monotone_witness :
    ∃ r1 r2, calculateEmission (fin 95) "bus" = some r1 ∧
      calculateEmission (fin 430) "bus" = some r2 ∧
      le (fin 0) r1 = true ∧ le r1 r2 = true :=
  calculateEmission_monotone 95 430 (3206562934687793 / 36028797018963968) "bus"
    (by norm_num) (by norm_num) lookup_bus
